import Mathlib

/-!
Verification development for the playlist mirroring program (`downloader.py`).

The program syncs a YouTube playlist listing and per-video comments into a
SQLite database.  We embed the database state and the write operations
shallowly:

* every SQLite table is a list of row structures, in insertion order;
* `INSERT OR IGNORE` on a table with a `PRIMARY KEY` / `UNIQUE` constraint
  appends the new row exactly when no existing row matches on the
  constrained column(s);
* `UPDATE ... WHERE ...` maps the update over the rows matching the filter;
* `SELECT ... WHERE ...` with `fetchone` is `List.find?`;
* the `AUTOINCREMENT` surrogate key of `playlists` is modelled with a
  monotone counter `seq` carried in the state;
* `datetime.utcnow().isoformat()` is modelled by an explicit timestamp
  parameter: all statements executed during one call observe the same
  instant;
* the external processes (`yt-dlp`, the comment downloader) are modelled by
  their outputs, passed in as arguments.
-/

/-- A Python value as it can appear in the `votes` field of a comment record:
`None`, a string, or an integer. -/
inductive PyVal where
  | none : PyVal
  | str (s : String) : PyVal
  | int (n : Int) : PyVal
deriving DecidableEq, Repr

/-- Python's whitespace test, on the ASCII whitespace characters. -/
def isPyWS (c : Char) : Bool :=
  c = ' ' || c = '\t' || c = '\n' || c = '\x0d' || c = '\x0b' || c = '\x0c'

/-- Drop leading whitespace characters from a character list. -/
def dropWS : List Char → List Char
  | [] => []
  | c :: cs => if isPyWS c then dropWS cs else c :: cs

/-- Python `str.strip()` (whitespace stripping on both ends): drop trailing
whitespace (via reversal), then leading whitespace. -/
def pyStrip (s : String) : String :=
  String.mk (dropWS (dropWS s.data.reverse).reverse)

/-- Accumulator loop for the digit part of Python `int(str)`: digits with
single underscores allowed strictly between digits.  The Bool records whether
the previous character was a digit (so the string may neither start nor end
with an underscore, and no two underscores may be adjacent); it also serves as
the nonemptiness check at the end. -/
def pyDigitsAux : Nat → Bool → List Char → Option Nat
  | acc, lastDigit, [] => if lastDigit then some acc else Option.none
  | acc, lastDigit, c :: cs =>
    if c.isDigit then pyDigitsAux (acc * 10 + (c.toNat - 48)) true cs
    else if c = '_' && lastDigit then pyDigitsAux acc false cs
    else Option.none

/-- Python `int(s)` on a string: strip whitespace, optional single sign,
then a nonempty digit part.  `Option.none` models a raised `ValueError`. -/
def pyIntOfStr (s : String) : Option Int :=
  match (pyStrip s).data with
  | [] => Option.none
  | c :: cs =>
    if c = '-' then (pyDigitsAux 0 false cs).map (fun n => -(n : Int))
    else if c = '+' then (pyDigitsAux 0 false cs).map (fun n => (n : Int))
    else (pyDigitsAux 0 false (c :: cs)).map (fun n => (n : Int))

/-- Python `x or 0`: returns `0` when `x` is falsy (`None`, `""`, `0`),
otherwise `x` itself. -/
def pyOr0 : PyVal → PyVal
  | PyVal.none => PyVal.int 0
  | PyVal.str t => if t = "" then PyVal.int 0 else PyVal.str t
  | PyVal.int n => if n = 0 then PyVal.int 0 else PyVal.int n

/-- Python `int(x)`; `Option.none` models a raised `TypeError`/`ValueError`. -/
def pyToInt : PyVal → Option Int
  | PyVal.none => Option.none
  | PyVal.str t => pyIntOfStr t
  | PyVal.int n => some n

/-- The vote coercion of `download_comments`:
`try: votes = int(comment['votes'] or 0) except: votes = 0`.
The field is `Option PyVal`; `Option.none` models a missing `'votes'` key,
whose `KeyError` is also absorbed by the bare `except`. -/
def coerceVotes (field : Option PyVal) : Int :=
  match field with
  | Option.none => 0
  | some v =>
    match pyToInt (pyOr0 v) with
    | some n => n
    | Option.none => 0

/-! ## Listing parsing (`get_playlist_videos`) -/

/-- `line.split("\t", 1)` destructured into exactly two names: split at the
first tab character; `Option.none` models the `ValueError` raised when the
split yields a single field (a line without a tab). -/
def splitAtFirstTab : List Char → Option (List Char × List Char)
  | [] => Option.none
  | c :: cs =>
    if c = '\t' then some ([], cs)
    else (splitAtFirstTab cs).map (fun p => (c :: p.1, p.2))

/-- String-level wrapper of `splitAtFirstTab`. -/
def splitTabOnce (l : String) : Option (String × String) :=
  (splitAtFirstTab l.data).map (fun p => (String.mk p.1, String.mk p.2))

/-- The body of the parsing loop of `get_playlist_videos`: skip empty lines
silently, accept a line that splits at a tab, and report (collect) a nonempty
line without a tab as a parse error. -/
def parseLineStep (acc : List (String × String) × List String) (line : String) :
    List (String × String) × List String :=
  if line = "" then acc
  else
    match splitTabOnce line with
    | some p => (acc.1 ++ [p], acc.2)
    | Option.none => (acc.1, acc.2 ++ [line])

/-- The parsing loop of `get_playlist_videos` over the list of output lines:
returns the accepted `(video_id, title)` pairs in order together with the
lines reported as parse errors. -/
def parseLines (ls : List String) : List (String × String) × List String :=
  ls.foldl parseLineStep ([], [])

/-- `get_playlist_videos` on the raw stdout of `yt-dlp`:
`result.stdout.strip().split("\n")`, then the parsing loop. -/
def getPlaylistVideos (stdout : String) : List (String × String) × List String :=
  parseLines ((pyStrip stdout).splitOn "\n")

/-! ## Database state -/

/-- A row of the `playlists` table. -/
structure PlaylistRow where
  id : Nat
  name : String
  last_updated : String
deriving DecidableEq, Repr

/-- A row of the `videos` table.  `is_available` is stored as the SQLite
integers 1/0; the program only ever writes 1 (`true`) on insert and update. -/
structure VideoRow where
  id : String
  title : String
  is_available : Bool
  last_updated : String
deriving DecidableEq, Repr

/-- A row of the `playlist_videos` membership table. -/
structure MembershipRow where
  playlist_id : Nat
  video_id : String
  last_updated : String
deriving DecidableEq, Repr

/-- A row of the `comments` table. -/
structure CommentRow where
  id : String
  video_id : String
  text : String
  author : String
  votes : Int
  time_parsed : Int
deriving DecidableEq, Repr

/-- A row of the `fts_comments` fts5 table (columns `id, text`; fts5 admits
no UNIQUE or PRIMARY KEY constraint on its columns). -/
structure FtsRow where
  id : String
  text : String
deriving DecidableEq, Repr

/-- The whole database state: the four primary tables and the full-text
table created by `init_db`, plus the `AUTOINCREMENT` counter backing
`playlists.id`.  Note that `init_db` creates no full-text table for video
titles: `fts_comments` is the only fts table in the schema. -/
structure DB where
  playlists : List PlaylistRow
  videos : List VideoRow
  playlist_videos : List MembershipRow
  comments : List CommentRow
  fts_comments : List FtsRow
  seq : Nat
deriving DecidableEq, Repr

/-- The state produced by `init_db` on a fresh database file: all tables
empty. -/
def dbEmpty : DB := ⟨[], [], [], [], [], 0⟩

/-! ## Write operations of `save_playlist` -/

/-- `INSERT OR IGNORE INTO playlists (name, last_updated) VALUES (?, ?)`:
`name` is UNIQUE, so the row is appended exactly when no row with this name
exists; the fresh surrogate id comes from the autoincrement counter. -/
def insertPlaylistOrIgnore (url ts : String) (s : DB) : DB :=
  if s.playlists.any (fun r => r.name = url) then s
  else
    { s with
      playlists := s.playlists ++ [⟨s.seq + 1, url, ts⟩]
      seq := s.seq + 1 }

/-- `UPDATE playlists SET last_updated = ? WHERE name = ?`. -/
def updatePlaylistTs (url ts : String) (s : DB) : DB :=
  { s with
    playlists :=
      s.playlists.map (fun r =>
        if r.name = url then { r with last_updated := ts } else r) }

/-- `SELECT id FROM playlists WHERE name = ?` followed by `fetchone`. -/
def findPlaylistId (url : String) (s : DB) : Option Nat :=
  (s.playlists.find? (fun r => r.name = url)).map (fun r => r.id)

/-- `INSERT OR IGNORE INTO videos (id, title, is_available, last_updated)
VALUES (?, ?, 1, ?)`: `id` is the primary key. -/
def insertVideoOrIgnore (vid title ts : String) (s : DB) : DB :=
  if s.videos.any (fun r => r.id = vid) then s
  else { s with videos := s.videos ++ [⟨vid, title, true, ts⟩] }

/-- `UPDATE videos SET last_updated = ?, is_available = 1 WHERE id = ?`. -/
def updateVideoRow (vid ts : String) (s : DB) : DB :=
  { s with
    videos :=
      s.videos.map (fun r =>
        if r.id = vid then { r with is_available := true, last_updated := ts }
        else r) }

/-- `INSERT OR IGNORE INTO playlist_videos (playlist_id, video_id,
last_updated) VALUES (?, ?, ?)`: the pair is UNIQUE. -/
def insertMembershipOrIgnore (pid : Nat) (vid ts : String) (s : DB) : DB :=
  if s.playlist_videos.any (fun m => m.playlist_id = pid ∧ m.video_id = vid) then s
  else { s with playlist_videos := s.playlist_videos ++ [⟨pid, vid, ts⟩] }

/-- The body of the per-video loop of `save_playlist`: insert-if-absent the
video, unconditionally refresh its timestamp and availability, insert-if-absent
the membership row. -/
def saveVideoStep (ts : String) (pid : Nat) (s : DB) (p : String × String) : DB :=
  insertMembershipOrIgnore pid p.1 ts
    (updateVideoRow p.1 ts (insertVideoOrIgnore p.1 p.2 ts s))

/-- The per-video loop body together with the `vids.append([video_id, title])`
accumulator collecting the returned list. -/
def savePlaylistStep (ts : String) (pid : Nat)
    (acc : DB × List (String × String)) (p : String × String) :
    DB × List (String × String) :=
  (saveVideoStep ts pid acc.1 p, acc.2 ++ [p])

/-- `save_playlist(playlist_url, videos)`: insert-if-absent the playlist row,
refresh its timestamp, look up its surrogate id (`cur.fetchone()[0]` — the
`Option.none` branch models the `TypeError` that an empty result would
raise), then run the per-video loop.  Returns the final state and the `vids`
accumulator. -/
def savePlaylist (url : String) (videos : List (String × String)) (ts : String)
    (s : DB) : Option (DB × List (String × String)) :=
  let s2 := updatePlaylistTs url ts (insertPlaylistOrIgnore url ts s)
  match findPlaylistId url s2 with
  | Option.none => Option.none
  | some pid => some (videos.foldl (savePlaylistStep ts pid) (s2, []))

/-! ## Comment synchronisation (`comments_exist`, `download_comments`) -/

/-- A record produced by the external comment downloader.  The `votes` field
is `Option PyVal` (`Option.none` models a record without a `'votes'` key);
the other keys are accessed unconditionally by the code and are modelled as
always present. -/
structure CommentRecord where
  cid : String
  text : String
  author : String
  votes : Option PyVal
  time_parsed : Int
deriving DecidableEq, Repr

/-- The comment row built from a fetched record for a given video. -/
def mkCommentRow (vid : String) (r : CommentRecord) : CommentRow :=
  ⟨r.cid, vid, r.text, r.author, coerceVotes r.votes, r.time_parsed⟩

/-- `comments_exist(video_id)`:
`SELECT EXISTS(SELECT 1 FROM comments WHERE video_id = ? LIMIT 1)`. -/
def commentsExist (vid : String) (s : DB) : Bool :=
  s.comments.any (fun c => c.video_id = vid)

/-- `INSERT OR IGNORE INTO comments ...`: `id` is the primary key. -/
def insertCommentOrIgnore (row : CommentRow) (s : DB) : DB :=
  if s.comments.any (fun c => c.id = row.id) then s
  else { s with comments := s.comments ++ [row] }

/-- `INSERT OR REPLACE INTO fts_comments (id, text) VALUES (?, ?)`: the fts5
table declares no UNIQUE or PRIMARY KEY constraint on `id` and the statement
supplies no rowid, so the REPLACE conflict action never fires and the
statement simply appends a new row. -/
def insertFtsComment (cid text : String) (s : DB) : DB :=
  { s with fts_comments := s.fts_comments ++ [⟨cid, text⟩] }

/-- The body of the per-comment loop of `download_comments`. -/
def commentStep (vid : String) (s : DB) (r : CommentRecord) : DB :=
  insertFtsComment r.cid r.text (insertCommentOrIgnore (mkCommentRow vid r) s)

/-- `download_comments(video_id)`: if any comment row already references the
video, return immediately; otherwise invoke the external downloader (its
output is the `records` argument) and run the per-comment loop.  The returned
Bool records whether the external downloader was invoked. -/
def downloadComments (vid : String) (records : List CommentRecord) (s : DB) :
    DB × Bool :=
  if commentsExist vid s then (s, false)
  else (records.foldl (commentStep vid) s, true)

/-- One comment-phase step of a full sync: sync the comments of one listed
video, the fetcher's output for video `v` being `commentsOf v`. -/
def commentPhaseStep (commentsOf : String → List CommentRecord) (s : DB)
    (p : String × String) : DB :=
  (downloadComments p.1 (commentsOf p.1) s).1

/-- A full sync: `save_playlist` on the listing, then `download_comments` for
each returned item in listing order. -/
def fullSync (url : String) (listing : List (String × String))
    (commentsOf : String → List CommentRecord) (ts : String) (s : DB) :
    Option DB :=
  match savePlaylist url listing ts s with
  | Option.none => Option.none
  | some pr => some (pr.2.foldl (commentPhaseStep commentsOf) pr.1)

/-! ## The retrying executor (`execute_with_retry`) -/

/-- A failure raised by `cur.execute`: either a `sqlite3.OperationalError`
carrying its message, or any other exception (for instance the
`sqlite3.IntegrityError` of a constraint violation). -/
inductive SqlError where
  | operational (msg : String) : SqlError
  | otherExc (msg : String) : SqlError
deriving DecidableEq, Repr

/-- Is a character list an infix of another (both Bool-level, no library
substring search)? -/
def startsWithChars : List Char → List Char → Bool
  | _, [] => true
  | [], _ :: _ => false
  | c :: cs, d :: ds => c = d && startsWithChars cs ds

/-- Does `hay` contain `needle` as a contiguous run? -/
def hasSubChars (needle : List Char) : List Char → Bool
  | [] => startsWithChars [] needle
  | c :: cs => startsWithChars (c :: cs) needle || hasSubChars needle cs

/-- The retry condition of `execute_with_retry`: the exception is a
`sqlite3.OperationalError` and `"database is locked" in str(e).lower()`
(`str.lower()` modelled character-wise, faithful on ASCII messages). -/
def isLockedError : SqlError → Bool
  | SqlError.operational msg =>
    hasSubChars "database is locked".data (msg.data.map Char.toLower)
  | SqlError.otherExc _ => false

/-- The observable outcome of `execute_with_retry`: success or a re-raised
exception, in each case after `n` sleeping retries. -/
inductive ExecOutcome where
  | success (retries : Nat) : ExecOutcome
  | raised (retries : Nat) (e : SqlError) : ExecOutcome
deriving DecidableEq, Repr

/-- The `while True` loop of `execute_with_retry`, driven by the outcome of
each attempt (`attempts i = Option.none` means attempt `i` succeeds, `some e`
means it raises `e`).  The loop itself is unbounded; `fuel` bounds how many
iterations we unfold, and `Option.none` as a result means the loop was still
running (still retrying) when the fuel ran out. -/
def executeWithRetryAux (attempts : Nat → Option SqlError) :
    Nat → Nat → Option ExecOutcome
  | _, 0 => Option.none
  | i, fuel + 1 =>
    match attempts i with
    | Option.none => some (ExecOutcome.success i)
    | some e =>
      if isLockedError e then executeWithRetryAux attempts (i + 1) fuel
      else some (ExecOutcome.raised i e)

/-- `execute_with_retry`, starting at attempt 0. -/
def executeWithRetry (attempts : Nat → Option SqlError) (fuel : Nat) :
    Option ExecOutcome :=
  executeWithRetryAux attempts 0 fuel

/-! ## Reachable database states -/

/-- The states reachable from a fresh database by any sequence of
`save_playlist` and `download_comments` calls. -/
inductive Reachable : DB → Prop
  | init : Reachable dbEmpty
  | save {s s' : DB} {url ts : String} {l vids : List (String × String)}
      (h : Reachable s) (hs : savePlaylist url l ts s = some (s', vids)) :
      Reachable s'
  | comments {s : DB} {vid : String} {records : List CommentRecord}
      (h : Reachable s) : Reachable (downloadComments vid records s).1

/-! ## Generic list and fold helpers -/

lemma foldl_proj_eq {α β γ : Type} (f : α → β → α) (g : α → γ)
    (h : ∀ s x, g (f s x) = g s) :
    ∀ (l : List β) (s : α), g (l.foldl f s) = g s := by
  intro l
  induction l with
  | nil => intro s; rfl
  | cons x xs ih => intro s; rw [List.foldl_cons, ih, h]

lemma foldl_preserves {α β : Type} {P : α → Prop} (f : α → β → α)
    (h : ∀ s x, P s → P (f s x)) :
    ∀ (l : List β) (s : α), P s → P (l.foldl f s) := by
  intro l
  induction l with
  | nil => intro s hs; exact hs
  | cons x xs ih => intro s hs; exact ih (f s x) (h s x hs)

lemma map_eq_self_of {α : Type} {f : α → α} {l : List α}
    (h : ∀ x ∈ l, f x = x) : l.map f = l := by
  induction l with
  | nil => rfl
  | cons x xs ih =>
    simp only [List.map_cons, h x (List.mem_cons_self x xs)]
    rw [ih (fun y hy => h y (List.mem_cons_of_mem x hy))]

lemma map_map_eq_of {α β : Type} {f : α → α} {g : α → β}
    (h : ∀ x, g (f x) = g x) (l : List α) : (l.map f).map g = l.map g := by
  induction l with
  | nil => rfl
  | cons x xs ih => simp only [List.map_cons, h, ih]

lemma nodup_append_singleton {α : Type} {l : List α} {a : α} :
    l.Nodup → a ∉ l → (l ++ [a]).Nodup := by
  intro h1 h2
  simp [List.nodup_append, h1, h2]

/-! ## Record eta lemmas -/

lemma PlaylistRow.set_ts_self {r : PlaylistRow} {ts : String}
    (h : r.last_updated = ts) : { r with last_updated := ts } = r := by
  cases r; simp_all

lemma VideoRow.set_fields_self {r : VideoRow} {ts : String}
    (h1 : r.is_available = true) (h2 : r.last_updated = ts) :
    { r with is_available := true, last_updated := ts } = r := by
  cases r; simp_all

/-! ## Projection lemmas: fields untouched by each operation -/

@[simp] lemma insertPlaylistOrIgnore_videos (url ts : String) (s : DB) :
    (insertPlaylistOrIgnore url ts s).videos = s.videos := by
  unfold insertPlaylistOrIgnore; split <;> rfl

@[simp] lemma insertPlaylistOrIgnore_pv (url ts : String) (s : DB) :
    (insertPlaylistOrIgnore url ts s).playlist_videos = s.playlist_videos := by
  unfold insertPlaylistOrIgnore; split <;> rfl

@[simp] lemma insertPlaylistOrIgnore_comments (url ts : String) (s : DB) :
    (insertPlaylistOrIgnore url ts s).comments = s.comments := by
  unfold insertPlaylistOrIgnore; split <;> rfl

@[simp] lemma insertPlaylistOrIgnore_fts (url ts : String) (s : DB) :
    (insertPlaylistOrIgnore url ts s).fts_comments = s.fts_comments := by
  unfold insertPlaylistOrIgnore; split <;> rfl

@[simp] lemma updatePlaylistTs_videos (url ts : String) (s : DB) :
    (updatePlaylistTs url ts s).videos = s.videos := rfl

@[simp] lemma updatePlaylistTs_pv (url ts : String) (s : DB) :
    (updatePlaylistTs url ts s).playlist_videos = s.playlist_videos := rfl

@[simp] lemma updatePlaylistTs_comments (url ts : String) (s : DB) :
    (updatePlaylistTs url ts s).comments = s.comments := rfl

@[simp] lemma updatePlaylistTs_fts (url ts : String) (s : DB) :
    (updatePlaylistTs url ts s).fts_comments = s.fts_comments := rfl

@[simp] lemma updatePlaylistTs_seq (url ts : String) (s : DB) :
    (updatePlaylistTs url ts s).seq = s.seq := rfl

@[simp] lemma insertVideoOrIgnore_playlists (vid title ts : String) (s : DB) :
    (insertVideoOrIgnore vid title ts s).playlists = s.playlists := by
  unfold insertVideoOrIgnore; split <;> rfl

@[simp] lemma insertVideoOrIgnore_pv (vid title ts : String) (s : DB) :
    (insertVideoOrIgnore vid title ts s).playlist_videos = s.playlist_videos := by
  unfold insertVideoOrIgnore; split <;> rfl

@[simp] lemma insertVideoOrIgnore_comments (vid title ts : String) (s : DB) :
    (insertVideoOrIgnore vid title ts s).comments = s.comments := by
  unfold insertVideoOrIgnore; split <;> rfl

@[simp] lemma insertVideoOrIgnore_fts (vid title ts : String) (s : DB) :
    (insertVideoOrIgnore vid title ts s).fts_comments = s.fts_comments := by
  unfold insertVideoOrIgnore; split <;> rfl

@[simp] lemma insertVideoOrIgnore_seq (vid title ts : String) (s : DB) :
    (insertVideoOrIgnore vid title ts s).seq = s.seq := by
  unfold insertVideoOrIgnore; split <;> rfl

@[simp] lemma updateVideoRow_playlists (vid ts : String) (s : DB) :
    (updateVideoRow vid ts s).playlists = s.playlists := rfl

@[simp] lemma updateVideoRow_pv (vid ts : String) (s : DB) :
    (updateVideoRow vid ts s).playlist_videos = s.playlist_videos := rfl

@[simp] lemma updateVideoRow_comments (vid ts : String) (s : DB) :
    (updateVideoRow vid ts s).comments = s.comments := rfl

@[simp] lemma updateVideoRow_fts (vid ts : String) (s : DB) :
    (updateVideoRow vid ts s).fts_comments = s.fts_comments := rfl

@[simp] lemma updateVideoRow_seq (vid ts : String) (s : DB) :
    (updateVideoRow vid ts s).seq = s.seq := rfl

@[simp] lemma insertMembershipOrIgnore_playlists (pid : Nat) (vid ts : String) (s : DB) :
    (insertMembershipOrIgnore pid vid ts s).playlists = s.playlists := by
  unfold insertMembershipOrIgnore; split <;> rfl

@[simp] lemma insertMembershipOrIgnore_videos (pid : Nat) (vid ts : String) (s : DB) :
    (insertMembershipOrIgnore pid vid ts s).videos = s.videos := by
  unfold insertMembershipOrIgnore; split <;> rfl

@[simp] lemma insertMembershipOrIgnore_comments (pid : Nat) (vid ts : String) (s : DB) :
    (insertMembershipOrIgnore pid vid ts s).comments = s.comments := by
  unfold insertMembershipOrIgnore; split <;> rfl

@[simp] lemma insertMembershipOrIgnore_fts (pid : Nat) (vid ts : String) (s : DB) :
    (insertMembershipOrIgnore pid vid ts s).fts_comments = s.fts_comments := by
  unfold insertMembershipOrIgnore; split <;> rfl

@[simp] lemma insertMembershipOrIgnore_seq (pid : Nat) (vid ts : String) (s : DB) :
    (insertMembershipOrIgnore pid vid ts s).seq = s.seq := by
  unfold insertMembershipOrIgnore; split <;> rfl

@[simp] lemma saveVideoStep_playlists (ts : String) (pid : Nat) (s : DB) (p : String × String) :
    (saveVideoStep ts pid s p).playlists = s.playlists := by
  unfold saveVideoStep; simp

@[simp] lemma saveVideoStep_comments (ts : String) (pid : Nat) (s : DB) (p : String × String) :
    (saveVideoStep ts pid s p).comments = s.comments := by
  unfold saveVideoStep; simp

@[simp] lemma saveVideoStep_fts (ts : String) (pid : Nat) (s : DB) (p : String × String) :
    (saveVideoStep ts pid s p).fts_comments = s.fts_comments := by
  unfold saveVideoStep; simp

@[simp] lemma saveVideoStep_seq (ts : String) (pid : Nat) (s : DB) (p : String × String) :
    (saveVideoStep ts pid s p).seq = s.seq := by
  unfold saveVideoStep; simp

@[simp] lemma insertCommentOrIgnore_playlists (row : CommentRow) (s : DB) :
    (insertCommentOrIgnore row s).playlists = s.playlists := by
  unfold insertCommentOrIgnore; split <;> rfl

@[simp] lemma insertCommentOrIgnore_videos (row : CommentRow) (s : DB) :
    (insertCommentOrIgnore row s).videos = s.videos := by
  unfold insertCommentOrIgnore; split <;> rfl

@[simp] lemma insertCommentOrIgnore_pv (row : CommentRow) (s : DB) :
    (insertCommentOrIgnore row s).playlist_videos = s.playlist_videos := by
  unfold insertCommentOrIgnore; split <;> rfl

@[simp] lemma insertCommentOrIgnore_fts (row : CommentRow) (s : DB) :
    (insertCommentOrIgnore row s).fts_comments = s.fts_comments := by
  unfold insertCommentOrIgnore; split <;> rfl

@[simp] lemma insertCommentOrIgnore_seq (row : CommentRow) (s : DB) :
    (insertCommentOrIgnore row s).seq = s.seq := by
  unfold insertCommentOrIgnore; split <;> rfl

@[simp] lemma insertFtsComment_playlists (cid text : String) (s : DB) :
    (insertFtsComment cid text s).playlists = s.playlists := rfl

@[simp] lemma insertFtsComment_videos (cid text : String) (s : DB) :
    (insertFtsComment cid text s).videos = s.videos := rfl

@[simp] lemma insertFtsComment_pv (cid text : String) (s : DB) :
    (insertFtsComment cid text s).playlist_videos = s.playlist_videos := rfl

@[simp] lemma insertFtsComment_comments (cid text : String) (s : DB) :
    (insertFtsComment cid text s).comments = s.comments := rfl

@[simp] lemma insertFtsComment_seq (cid text : String) (s : DB) :
    (insertFtsComment cid text s).seq = s.seq := rfl

@[simp] lemma commentStep_playlists (vid : String) (s : DB) (r : CommentRecord) :
    (commentStep vid s r).playlists = s.playlists := by
  unfold commentStep; simp

@[simp] lemma commentStep_videos (vid : String) (s : DB) (r : CommentRecord) :
    (commentStep vid s r).videos = s.videos := by
  unfold commentStep; simp

@[simp] lemma commentStep_pv (vid : String) (s : DB) (r : CommentRecord) :
    (commentStep vid s r).playlist_videos = s.playlist_videos := by
  unfold commentStep; simp

@[simp] lemma commentStep_seq (vid : String) (s : DB) (r : CommentRecord) :
    (commentStep vid s r).seq = s.seq := by
  unfold commentStep; simp

@[simp] lemma downloadComments_playlists (vid : String) (rs : List CommentRecord) (s : DB) :
    (downloadComments vid rs s).1.playlists = s.playlists := by
  unfold downloadComments; split
  · rfl
  · exact foldl_proj_eq (commentStep vid) DB.playlists (by simp) rs s

@[simp] lemma downloadComments_videos (vid : String) (rs : List CommentRecord) (s : DB) :
    (downloadComments vid rs s).1.videos = s.videos := by
  unfold downloadComments; split
  · rfl
  · exact foldl_proj_eq (commentStep vid) DB.videos (by simp) rs s

@[simp] lemma downloadComments_pv (vid : String) (rs : List CommentRecord) (s : DB) :
    (downloadComments vid rs s).1.playlist_videos = s.playlist_videos := by
  unfold downloadComments; split
  · rfl
  · exact foldl_proj_eq (commentStep vid) DB.playlist_videos (by simp) rs s

@[simp] lemma downloadComments_seq (vid : String) (rs : List CommentRecord) (s : DB) :
    (downloadComments vid rs s).1.seq = s.seq := by
  unfold downloadComments; split
  · rfl
  · exact foldl_proj_eq (commentStep vid) DB.seq (by simp) rs s

@[simp] lemma commentPhaseStep_playlists (commentsOf : String → List CommentRecord)
    (s : DB) (p : String × String) :
    (commentPhaseStep commentsOf s p).playlists = s.playlists := by
  unfold commentPhaseStep; simp

@[simp] lemma commentPhaseStep_videos (commentsOf : String → List CommentRecord)
    (s : DB) (p : String × String) :
    (commentPhaseStep commentsOf s p).videos = s.videos := by
  unfold commentPhaseStep; simp

@[simp] lemma commentPhaseStep_pv (commentsOf : String → List CommentRecord)
    (s : DB) (p : String × String) :
    (commentPhaseStep commentsOf s p).playlist_videos = s.playlist_videos := by
  unfold commentPhaseStep; simp

@[simp] lemma commentPhaseStep_seq (commentsOf : String → List CommentRecord)
    (s : DB) (p : String × String) :
    (commentPhaseStep commentsOf s p).seq = s.seq := by
  unfold commentPhaseStep; simp

/-! ## save_playlist: characterization -/

lemma foldl_savePlaylistStep (ts : String) (pid : Nat) :
    ∀ (l : List (String × String)) (st : DB) (acc : List (String × String)),
      l.foldl (savePlaylistStep ts pid) (st, acc) =
        (l.foldl (saveVideoStep ts pid) st, acc ++ l) := by
  intro l
  induction l with
  | nil => intro st acc; simp
  | cons p ps ih =>
    intro st acc
    simp only [List.foldl_cons, savePlaylistStep]
    rw [ih]
    simp

lemma exists_name_after_insertPlaylist (url ts : String) (s : DB) :
    ∃ r ∈ (insertPlaylistOrIgnore url ts s).playlists, r.name = url := by
  unfold insertPlaylistOrIgnore
  cases hc : s.playlists.any (fun r => r.name = url) with
  | true =>
    rcases List.any_eq_true.mp hc with ⟨r, hr, hname⟩
    exact ⟨r, by simp [hc, hr], by simpa using hname⟩
  | false => exact ⟨⟨s.seq + 1, url, ts⟩, by simp [hc], rfl⟩

/-- After `save_playlist`'s first two statements the playlist row for `url`
exists and every row named `url` carries timestamp `ts`. -/
def PlaylistSavedAt (url ts : String) (s : DB) : Prop :=
  (∃ r ∈ s.playlists, r.name = url) ∧
  ∀ r ∈ s.playlists, r.name = url → r.last_updated = ts

lemma prep_playlistSaved (url ts : String) (s : DB) :
    PlaylistSavedAt url ts (updatePlaylistTs url ts (insertPlaylistOrIgnore url ts s)) := by
  constructor
  · obtain ⟨r, hr, hname⟩ := exists_name_after_insertPlaylist url ts s
    refine ⟨{ r with last_updated := ts }, ?_, hname⟩
    unfold updatePlaylistTs
    exact List.mem_map.mpr ⟨r, hr, by simp [hname]⟩
  · intro r hr hname
    unfold updatePlaylistTs at hr
    simp only [List.mem_map] at hr
    obtain ⟨r0, hr0, heq⟩ := hr
    by_cases hc : r0.name = url
    · rw [if_pos hc] at heq; rw [← heq]
    · rw [if_neg hc] at heq; rw [← heq] at hname; exact absurd hname hc

lemma prep_fixed (url ts : String) (s : DB) (h : PlaylistSavedAt url ts s) :
    updatePlaylistTs url ts (insertPlaylistOrIgnore url ts s) = s := by
  obtain ⟨⟨r, hr, hname⟩, hall⟩ := h
  have hins : insertPlaylistOrIgnore url ts s = s := by
    unfold insertPlaylistOrIgnore
    have hany : s.playlists.any (fun r => r.name = url) = true :=
      List.any_eq_true.mpr ⟨r, hr, by simp [hname]⟩
    simp [hany]
  rw [hins]
  unfold updatePlaylistTs
  have hmap : s.playlists.map
      (fun r => if r.name = url then { r with last_updated := ts } else r) = s.playlists :=
    map_eq_self_of (fun x hx => by
      by_cases hc : x.name = url
      · rw [if_pos hc]; exact PlaylistRow.set_ts_self (hall x hx hc)
      · rw [if_neg hc])
  rw [hmap]

lemma findPlaylistId_isSome (url : String) (s : DB)
    (h : ∃ r ∈ s.playlists, r.name = url) :
    ∃ pid, findPlaylistId url s = some pid := by
  obtain ⟨r, hr, hname⟩ := h
  have hs : (s.playlists.find? (fun r => r.name = url)).isSome := by
    rw [List.find?_isSome]
    exact ⟨r, hr, by simp [hname]⟩
  obtain ⟨r0, hr0⟩ := Option.isSome_iff_exists.mp hs
  exact ⟨r0.id, by unfold findPlaylistId; rw [hr0]; rfl⟩

lemma savePlaylist_char (url : String) (videos : List (String × String))
    (ts : String) (s : DB) :
    ∃ pid,
      findPlaylistId url (updatePlaylistTs url ts (insertPlaylistOrIgnore url ts s)) =
        some pid ∧
      savePlaylist url videos ts s =
        some (videos.foldl (saveVideoStep ts pid)
          (updatePlaylistTs url ts (insertPlaylistOrIgnore url ts s)), videos) := by
  obtain ⟨pid, hpid⟩ :=
    findPlaylistId_isSome url _ (prep_playlistSaved url ts s).1
  refine ⟨pid, hpid, ?_⟩
  simp only [savePlaylist, hpid]
  rw [foldl_savePlaylistStep]
  simp

/-! ## Per-video state predicate -/

/-- After the per-video loop of `save_playlist` has processed video `v`: a
row for `v` exists, every row for `v` is available with timestamp `ts`, and
the membership row `(pid, v)` exists. -/
def VideoSavedAt (ts : String) (pid : Nat) (v : String) (s : DB) : Prop :=
  (∃ r ∈ s.videos, r.id = v) ∧
  (∀ r ∈ s.videos, r.id = v → r.is_available = true ∧ r.last_updated = ts) ∧
  (∃ m ∈ s.playlist_videos, m.playlist_id = pid ∧ m.video_id = v)

lemma insertVideoOrIgnore_mem_self (vid title ts : String) (s : DB) :
    ∃ r ∈ (insertVideoOrIgnore vid title ts s).videos, r.id = vid := by
  unfold insertVideoOrIgnore
  cases hc : s.videos.any (fun r => r.id = vid) with
  | true =>
    rcases List.any_eq_true.mp hc with ⟨r, hr, hid⟩
    exact ⟨r, by simp [hc, hr], by simpa using hid⟩
  | false => exact ⟨⟨vid, title, true, ts⟩, by simp [hc], rfl⟩

lemma insertVideoOrIgnore_mem_sup (vid title ts : String) (s : DB) {r : VideoRow}
    (h : r ∈ s.videos) : r ∈ (insertVideoOrIgnore vid title ts s).videos := by
  unfold insertVideoOrIgnore
  cases hc : s.videos.any (fun r => r.id = vid) with
  | true => simpa [hc] using h
  | false => simp [hc, List.mem_append]; exact Or.inl h

lemma insertVideoOrIgnore_mem_cases (vid title ts : String) (s : DB) {r : VideoRow}
    (h : r ∈ (insertVideoOrIgnore vid title ts s).videos) :
    r ∈ s.videos ∨ (r = ⟨vid, title, true, ts⟩ ∧ ∀ r0 ∈ s.videos, r0.id ≠ vid) := by
  unfold insertVideoOrIgnore at h
  cases hc : s.videos.any (fun r => r.id = vid) with
  | true => rw [hc] at h; simp at h; exact Or.inl h
  | false =>
    rw [hc] at h
    simp only [if_neg Bool.false_ne_true] at h
    rcases List.mem_append.mp h with h1 | h1
    · exact Or.inl h1
    · right
      refine ⟨by simpa using h1, ?_⟩
      intro r0 hr0 hid
      have hmem : s.videos.any (fun r => r.id = vid) = true :=
        List.any_eq_true.mpr ⟨r0, hr0, by simp [hid]⟩
      rw [hc] at hmem
      exact absurd hmem (by simp)

lemma updateVideoRow_mem_id (vid ts v : String) (s : DB)
    (h : ∃ r ∈ s.videos, r.id = v) :
    ∃ r ∈ (updateVideoRow vid ts s).videos, r.id = v := by
  obtain ⟨r, hr, hid⟩ := h
  unfold updateVideoRow
  by_cases hc : r.id = vid
  · exact ⟨{ r with is_available := true, last_updated := ts },
      List.mem_map.mpr ⟨r, hr, by rw [if_pos hc]⟩, hid⟩
  · exact ⟨r, List.mem_map.mpr ⟨r, hr, by rw [if_neg hc]⟩, hid⟩

lemma updateVideoRow_all_self (vid ts : String) (s : DB) :
    ∀ r ∈ (updateVideoRow vid ts s).videos, r.id = vid →
      r.is_available = true ∧ r.last_updated = ts := by
  intro r hr hid
  unfold updateVideoRow at hr
  simp only [List.mem_map] at hr
  obtain ⟨r0, hr0, heq⟩ := hr
  by_cases hc : r0.id = vid
  · rw [if_pos hc] at heq; rw [← heq]; exact ⟨rfl, rfl⟩
  · rw [if_neg hc] at heq; rw [← heq] at hid; exact absurd hid hc

lemma updateVideoRow_all_preserved (vid ts v : String) (s : DB)
    (h : ∀ r ∈ s.videos, r.id = v → r.is_available = true ∧ r.last_updated = ts) :
    ∀ r ∈ (updateVideoRow vid ts s).videos, r.id = v →
      r.is_available = true ∧ r.last_updated = ts := by
  intro r hr hid
  unfold updateVideoRow at hr
  simp only [List.mem_map] at hr
  obtain ⟨r0, hr0, heq⟩ := hr
  by_cases hc : r0.id = vid
  · rw [if_pos hc] at heq; rw [← heq]; exact ⟨rfl, rfl⟩
  · rw [if_neg hc] at heq; rw [← heq]; rw [← heq] at hid; exact h r0 hr0 hid

lemma insertMembershipOrIgnore_mem_self (pid : Nat) (vid ts : String) (s : DB) :
    ∃ m ∈ (insertMembershipOrIgnore pid vid ts s).playlist_videos,
      m.playlist_id = pid ∧ m.video_id = vid := by
  unfold insertMembershipOrIgnore
  cases hc : s.playlist_videos.any (fun m => m.playlist_id = pid ∧ m.video_id = vid) with
  | true =>
    rcases List.any_eq_true.mp hc with ⟨m, hm, hmp⟩
    exact ⟨m, by simp [hc, hm], by simpa using hmp⟩
  | false => exact ⟨⟨pid, vid, ts⟩, by simp [hc], rfl, rfl⟩

lemma insertMembershipOrIgnore_mem_sup (pid : Nat) (vid ts : String) (s : DB)
    {m : MembershipRow} (h : m ∈ s.playlist_videos) :
    m ∈ (insertMembershipOrIgnore pid vid ts s).playlist_videos := by
  unfold insertMembershipOrIgnore
  cases hc : s.playlist_videos.any (fun m => m.playlist_id = pid ∧ m.video_id = vid) with
  | true => simpa [hc] using h
  | false => simp [hc, List.mem_append]; exact Or.inl h

lemma saveVideoStep_establishes (ts : String) (pid : Nat) (s : DB)
    (p : String × String) : VideoSavedAt ts pid p.1 (saveVideoStep ts pid s p) := by
  unfold saveVideoStep
  refine ⟨?_, ?_, ?_⟩
  · rw [insertMembershipOrIgnore_videos]
    exact updateVideoRow_mem_id p.1 ts p.1 _ (insertVideoOrIgnore_mem_self p.1 p.2 ts s)
  · rw [insertMembershipOrIgnore_videos]
    exact updateVideoRow_all_self p.1 ts _
  · exact insertMembershipOrIgnore_mem_self pid p.1 ts _

lemma saveVideoStep_preserves (ts : String) (pid : Nat) (v : String) (s : DB)
    (p : String × String) (h : VideoSavedAt ts pid v s) :
    VideoSavedAt ts pid v (saveVideoStep ts pid s p) := by
  obtain ⟨⟨r, hr, hid⟩, hall, ⟨m, hm, hmp⟩⟩ := h
  unfold saveVideoStep
  refine ⟨?_, ?_, ?_⟩
  · rw [insertMembershipOrIgnore_videos]
    exact updateVideoRow_mem_id p.1 ts v _
      ⟨r, insertVideoOrIgnore_mem_sup p.1 p.2 ts s hr, hid⟩
  · rw [insertMembershipOrIgnore_videos]
    refine updateVideoRow_all_preserved p.1 ts v _ ?_
    intro r0 hr0 hid0
    rcases insertVideoOrIgnore_mem_cases p.1 p.2 ts s hr0 with hin | ⟨heq, hnone⟩
    · exact hall r0 hin hid0
    · exfalso
      have : r.id ≠ p.1 := hnone r hr
      rw [heq] at hid0
      simp at hid0
      rw [← hid0] at hid
      exact this hid
  · refine ⟨m, insertMembershipOrIgnore_mem_sup pid p.1 ts _ ?_, hmp⟩
    simpa using hm

lemma foldl_saveVideoStep_preserves (ts : String) (pid : Nat) (v : String)
    (l : List (String × String)) (s : DB) (h : VideoSavedAt ts pid v s) :
    VideoSavedAt ts pid v (l.foldl (saveVideoStep ts pid) s) :=
  foldl_preserves (saveVideoStep ts pid)
    (fun s p hs => saveVideoStep_preserves ts pid v s p hs) l s h

lemma foldl_saveVideoStep_establishes (ts : String) (pid : Nat) :
    ∀ (l : List (String × String)) (s : DB) (p : String × String), p ∈ l →
      VideoSavedAt ts pid p.1 (l.foldl (saveVideoStep ts pid) s) := by
  intro l
  induction l with
  | nil => intro s p hp; exact absurd hp (List.not_mem_nil p)
  | cons q qs ih =>
    intro s p hp
    rw [List.foldl_cons]
    rcases List.mem_cons.mp hp with hq | hq
    · rw [hq]
      exact foldl_saveVideoStep_preserves ts pid q.1 qs _
        (saveVideoStep_establishes ts pid s q)
    · exact ih _ p hq

lemma saveVideoStep_fixed (ts : String) (pid : Nat) (s : DB) (p : String × String)
    (h : VideoSavedAt ts pid p.1 s) : saveVideoStep ts pid s p = s := by
  obtain ⟨⟨r, hr, hid⟩, hall, ⟨m, hm, hmp⟩⟩ := h
  unfold saveVideoStep
  have hins : insertVideoOrIgnore p.1 p.2 ts s = s := by
    unfold insertVideoOrIgnore
    have hany : s.videos.any (fun r => r.id = p.1) = true :=
      List.any_eq_true.mpr ⟨r, hr, by simp [hid]⟩
    simp [hany]
  rw [hins]
  have hupd : updateVideoRow p.1 ts s = s := by
    unfold updateVideoRow
    have hmap : s.videos.map
        (fun r => if r.id = p.1 then
          { r with is_available := true, last_updated := ts } else r) = s.videos :=
      map_eq_self_of (fun x hx => by
        by_cases hc : x.id = p.1
        · rw [if_pos hc]
          exact VideoRow.set_fields_self (hall x hx hc).1 (hall x hx hc).2
        · rw [if_neg hc])
    rw [hmap]
  rw [hupd]
  unfold insertMembershipOrIgnore
  have hany : s.playlist_videos.any
      (fun m => m.playlist_id = pid ∧ m.video_id = p.1) = true :=
    List.any_eq_true.mpr ⟨m, hm, by simp [hmp.1, hmp.2]⟩
  rw [hany]
  simp

lemma foldl_saveVideoStep_fixed (ts : String) (pid : Nat) :
    ∀ (l : List (String × String)) (s : DB),
      (∀ p ∈ l, VideoSavedAt ts pid p.1 s) →
      l.foldl (saveVideoStep ts pid) s = s := by
  intro l
  induction l with
  | nil => intro s _; rfl
  | cons q qs ih =>
    intro s h
    rw [List.foldl_cons, saveVideoStep_fixed ts pid s q (h q (List.mem_cons_self q qs))]
    exact ih s (fun p hp => h p (List.mem_cons_of_mem q hp))

/-! ## Comment phase: growth, provenance, existence -/

lemma commentStep_comments_eq (vid : String) (s : DB) (r : CommentRecord) :
    (commentStep vid s r).comments = (insertCommentOrIgnore (mkCommentRow vid r) s).comments := by
  unfold commentStep; simp

lemma insertCommentOrIgnore_sup (row : CommentRow) (s : DB) {c : CommentRow}
    (h : c ∈ s.comments) : c ∈ (insertCommentOrIgnore row s).comments := by
  unfold insertCommentOrIgnore
  cases hc : s.comments.any (fun c0 => c0.id = row.id) with
  | true => simpa [hc] using h
  | false => simp [hc, List.mem_append]; exact Or.inl h

lemma insertCommentOrIgnore_cases (row : CommentRow) (s : DB) {c : CommentRow}
    (h : c ∈ (insertCommentOrIgnore row s).comments) : c ∈ s.comments ∨ c = row := by
  unfold insertCommentOrIgnore at h
  cases hc : s.comments.any (fun c0 => c0.id = row.id) with
  | true => rw [hc] at h; simp at h; exact Or.inl h
  | false =>
    rw [hc] at h
    simp only [if_neg Bool.false_ne_true] at h
    rcases List.mem_append.mp h with h1 | h1
    · exact Or.inl h1
    · exact Or.inr (by simpa using h1)

lemma foldl_commentStep_sup (vid : String) (rs : List CommentRecord) (s : DB)
    {c : CommentRow} (h : c ∈ s.comments) :
    c ∈ (rs.foldl (commentStep vid) s).comments := by
  refine foldl_preserves (P := fun st => c ∈ st.comments) (commentStep vid) ?_ rs s h
  intro st r hst
  rw [commentStep_comments_eq]
  exact insertCommentOrIgnore_sup _ _ hst

lemma foldl_commentStep_cases (vid : String) :
    ∀ (rs : List CommentRecord) (s : DB) (c : CommentRow),
      c ∈ (rs.foldl (commentStep vid) s).comments →
      c ∈ s.comments ∨ ∃ r ∈ rs, c = mkCommentRow vid r := by
  intro rs
  induction rs with
  | nil => intro s c h; exact Or.inl h
  | cons r rest ih =>
    intro s c h
    rw [List.foldl_cons] at h
    rcases ih (commentStep vid s r) c h with h1 | ⟨r0, hr0, heq⟩
    · rw [commentStep_comments_eq] at h1
      rcases insertCommentOrIgnore_cases _ _ h1 with h2 | h2
      · exact Or.inl h2
      · exact Or.inr ⟨r, List.mem_cons_self r rest, h2⟩
    · exact Or.inr ⟨r0, List.mem_cons_of_mem r hr0, heq⟩

lemma downloadComments_comments_sup (vid : String) (rs : List CommentRecord)
    (s : DB) {c : CommentRow} (h : c ∈ s.comments) :
    c ∈ (downloadComments vid rs s).1.comments := by
  unfold downloadComments
  cases hex : commentsExist vid s with
  | true => simpa [hex] using h
  | false =>
    simp only [if_neg Bool.false_ne_true, hex]
    exact foldl_commentStep_sup vid rs s h

lemma downloadComments_comments_cases (vid : String) (rs : List CommentRecord)
    (s : DB) {c : CommentRow} (h : c ∈ (downloadComments vid rs s).1.comments) :
    c ∈ s.comments ∨ ∃ r ∈ rs, c = mkCommentRow vid r := by
  unfold downloadComments at h
  cases hex : commentsExist vid s with
  | true => rw [hex] at h; simp at h; exact Or.inl h
  | false =>
    rw [hex] at h
    simp only [if_neg Bool.false_ne_true] at h
    exact foldl_commentStep_cases vid rs s c h

lemma commentsExist_true_iff (vid : String) (s : DB) :
    commentsExist vid s = true ↔ ∃ c ∈ s.comments, c.video_id = vid := by
  unfold commentsExist
  rw [List.any_eq_true]
  constructor
  · rintro ⟨c, hc, hv⟩; exact ⟨c, hc, by simpa using hv⟩
  · rintro ⟨c, hc, hv⟩; exact ⟨c, hc, by simp [hv]⟩

lemma commentsExist_step_mono (commentsOf : String → List CommentRecord)
    (v : String) (cur : DB) (p : String × String)
    (h : commentsExist v cur = true) :
    commentsExist v (commentPhaseStep commentsOf cur p) = true := by
  rcases (commentsExist_true_iff v cur).mp h with ⟨c, hc, hv⟩
  refine (commentsExist_true_iff v _).mpr ⟨c, ?_, hv⟩
  unfold commentPhaseStep
  exact downloadComments_comments_sup _ _ _ hc

lemma commentsExist_fold_mono (commentsOf : String → List CommentRecord)
    (v : String) (l : List (String × String)) (cur : DB)
    (h : commentsExist v cur = true) :
    commentsExist v (l.foldl (commentPhaseStep commentsOf) cur) = true :=
  foldl_preserves (commentPhaseStep commentsOf)
    (fun st p hst => commentsExist_step_mono commentsOf v st p hst) l cur h

lemma downloadComments_nonempty_ensures (vid : String) (r0 : CommentRecord)
    (rest : List CommentRecord) (s : DB)
    (hfresh : ∀ c ∈ s.comments, c.id ≠ r0.cid) :
    commentsExist vid (downloadComments vid (r0 :: rest) s).1 = true := by
  unfold downloadComments
  cases hex : commentsExist vid s with
  | true => simp [hex]
  | false =>
    simp only [if_neg Bool.false_ne_true, hex]
    rw [List.foldl_cons]
    have hrow : mkCommentRow vid r0 ∈ (commentStep vid s r0).comments := by
      rw [commentStep_comments_eq]
      unfold insertCommentOrIgnore
      cases hc : s.comments.any (fun c0 => c0.id = (mkCommentRow vid r0).id) with
      | true =>
        exfalso
        rcases List.any_eq_true.mp hc with ⟨c, hcmem, hcid⟩
        exact hfresh c hcmem (by simpa [mkCommentRow] using hcid)
      | false => simp [hc]
    have hmem := foldl_commentStep_sup vid rest (commentStep vid s r0) hrow
    exact (commentsExist_true_iff vid _).mpr ⟨mkCommentRow vid r0, hmem, rfl⟩

/-- Provenance of comment rows during a comment phase over a given listing:
every row either came from the initial state or is the row built from some
listed video's fetched record. -/
def CommentProv (s0 : DB) (listing : List (String × String))
    (commentsOf : String → List CommentRecord) (cur : DB) : Prop :=
  ∀ c ∈ cur.comments,
    c ∈ s0.comments ∨ ∃ p ∈ listing, ∃ r ∈ commentsOf p.1, c = mkCommentRow p.1 r

lemma commentPhaseStep_prov (s0 : DB) (listing : List (String × String))
    (commentsOf : String → List CommentRecord) (cur : DB) (p : String × String)
    (hp : p ∈ listing) (h : CommentProv s0 listing commentsOf cur) :
    CommentProv s0 listing commentsOf (commentPhaseStep commentsOf cur p) := by
  intro c hc
  unfold commentPhaseStep at hc
  rcases downloadComments_comments_cases _ _ _ hc with h1 | ⟨r, hr, heq⟩
  · exact h c h1
  · exact Or.inr ⟨p, hp, r, hr, heq⟩

lemma exists_comment_after_step (s0 : DB) (listing : List (String × String))
    (commentsOf : String → List CommentRecord) (cur : DB) (p : String × String)
    (hp : p ∈ listing)
    (hprov : CommentProv s0 listing commentsOf cur)
    (H1 : ∀ q ∈ listing, ∀ r ∈ commentsOf q.1, ∀ c ∈ s0.comments, c.id ≠ r.cid)
    (H2 : ∀ q ∈ listing, ∀ q' ∈ listing, q.1 ≠ q'.1 →
      ∀ r ∈ commentsOf q.1, ∀ r' ∈ commentsOf q'.1, r.cid ≠ r'.cid)
    (hne : commentsOf p.1 ≠ []) :
    commentsExist p.1 (commentPhaseStep commentsOf cur p) = true := by
  obtain ⟨r0, rest, hrs⟩ : ∃ r0 rest, commentsOf p.1 = r0 :: rest := by
    cases hcs : commentsOf p.1 with
    | nil => exact absurd hcs hne
    | cons a l => exact ⟨a, l, rfl⟩
  cases hex : commentsExist p.1 cur with
  | true => exact commentsExist_step_mono commentsOf p.1 cur p hex
  | false =>
    unfold commentPhaseStep
    rw [hrs]
    apply downloadComments_nonempty_ensures
    intro c hc hcid
    rcases hprov c hc with h1 | ⟨q, hq, r, hr, heq⟩
    · exact H1 p hp r0 (by rw [hrs]; exact List.mem_cons_self r0 rest) c h1 hcid
    · by_cases hqq : q.1 = p.1
      · have hvid : c.video_id = p.1 := by rw [heq]; simpa [mkCommentRow] using hqq
        have hex' : commentsExist p.1 cur = true :=
          (commentsExist_true_iff p.1 cur).mpr ⟨c, hc, hvid⟩
        rw [hex] at hex'
        exact absurd hex' (by simp)
      · have hcid' : c.id = r.cid := by rw [heq]; rfl
        exact H2 q hq p hp hqq r hr r0
          (by rw [hrs]; exact List.mem_cons_self r0 rest)
          (by rw [← hcid']; exact hcid)

lemma commentPhase_exists (s0 : DB) (listing : List (String × String))
    (commentsOf : String → List CommentRecord)
    (H1 : ∀ q ∈ listing, ∀ r ∈ commentsOf q.1, ∀ c ∈ s0.comments, c.id ≠ r.cid)
    (H2 : ∀ q ∈ listing, ∀ q' ∈ listing, q.1 ≠ q'.1 →
      ∀ r ∈ commentsOf q.1, ∀ r' ∈ commentsOf q'.1, r.cid ≠ r'.cid) :
    ∀ (l : List (String × String)) (cur : DB),
      (∀ q ∈ l, q ∈ listing) →
      CommentProv s0 listing commentsOf cur →
      ∀ p ∈ l, commentsOf p.1 ≠ [] →
        commentsExist p.1 (l.foldl (commentPhaseStep commentsOf) cur) = true := by
  intro l
  induction l with
  | nil => intro cur _ _ p hp; exact absurd hp (List.not_mem_nil p)
  | cons q qs ih =>
    intro cur hsub hprov p hp hne
    rw [List.foldl_cons]
    rcases List.mem_cons.mp hp with hpq | hpq
    · subst hpq
      exact commentsExist_fold_mono commentsOf p.1 qs _
        (exists_comment_after_step s0 listing commentsOf cur p
          (hsub p (List.mem_cons_self p qs)) hprov H1 H2 hne)
    · exact ih (commentPhaseStep commentsOf cur q)
        (fun q0 hq0 => hsub q0 (List.mem_cons_of_mem q hq0))
        (commentPhaseStep_prov s0 listing commentsOf cur q
          (hsub q (List.mem_cons_self q qs)) hprov)
        p hpq hne

/-! ## Fixed points of a second run -/

lemma PlaylistSavedAt_congr {url ts : String} {s s' : DB}
    (h : s'.playlists = s.playlists) (hp : PlaylistSavedAt url ts s) :
    PlaylistSavedAt url ts s' := by
  unfold PlaylistSavedAt at hp ⊢
  rw [h]
  exact hp

lemma VideoSavedAt_congr {ts : String} {pid : Nat} {v : String} {s s' : DB}
    (hv : s'.videos = s.videos) (hm : s'.playlist_videos = s.playlist_videos)
    (h : VideoSavedAt ts pid v s) : VideoSavedAt ts pid v s' := by
  unfold VideoSavedAt at h ⊢
  rw [hv, hm]
  exact h

lemma findPlaylistId_congr {url : String} {s s' : DB}
    (h : s'.playlists = s.playlists) :
    findPlaylistId url s' = findPlaylistId url s := by
  unfold findPlaylistId
  rw [h]

lemma foldl_saveVideoStep_playlists (ts : String) (pid : Nat)
    (l : List (String × String)) (s : DB) :
    (l.foldl (saveVideoStep ts pid) s).playlists = s.playlists :=
  foldl_proj_eq (saveVideoStep ts pid) DB.playlists (by simp) l s

lemma foldl_saveVideoStep_comments (ts : String) (pid : Nat)
    (l : List (String × String)) (s : DB) :
    (l.foldl (saveVideoStep ts pid) s).comments = s.comments :=
  foldl_proj_eq (saveVideoStep ts pid) DB.comments (by simp) l s

lemma foldl_saveVideoStep_fts (ts : String) (pid : Nat)
    (l : List (String × String)) (s : DB) :
    (l.foldl (saveVideoStep ts pid) s).fts_comments = s.fts_comments :=
  foldl_proj_eq (saveVideoStep ts pid) DB.fts_comments (by simp) l s

lemma foldl_commentPhaseStep_playlists (commentsOf : String → List CommentRecord)
    (l : List (String × String)) (s : DB) :
    (l.foldl (commentPhaseStep commentsOf) s).playlists = s.playlists :=
  foldl_proj_eq (commentPhaseStep commentsOf) DB.playlists (by simp) l s

lemma foldl_commentPhaseStep_videos (commentsOf : String → List CommentRecord)
    (l : List (String × String)) (s : DB) :
    (l.foldl (commentPhaseStep commentsOf) s).videos = s.videos :=
  foldl_proj_eq (commentPhaseStep commentsOf) DB.videos (by simp) l s

lemma foldl_commentPhaseStep_pv (commentsOf : String → List CommentRecord)
    (l : List (String × String)) (s : DB) :
    (l.foldl (commentPhaseStep commentsOf) s).playlist_videos = s.playlist_videos :=
  foldl_proj_eq (commentPhaseStep commentsOf) DB.playlist_videos (by simp) l s

lemma savePlaylist_fixed (url : String) (listing : List (String × String))
    (ts : String) (s : DB) (pid : Nat)
    (hps : PlaylistSavedAt url ts s)
    (hpid : findPlaylistId url s = some pid)
    (hvs : ∀ p ∈ listing, VideoSavedAt ts pid p.1 s) :
    savePlaylist url listing ts s = some (s, listing) := by
  obtain ⟨pid', hpid', hchar⟩ := savePlaylist_char url listing ts s
  rw [prep_fixed url ts s hps] at hpid' hchar
  rw [hpid] at hpid'
  injection hpid' with hp
  rw [hchar, ← hp, foldl_saveVideoStep_fixed ts pid listing s hvs]

lemma commentPhaseStep_fixed (commentsOf : String → List CommentRecord)
    (cur : DB) (p : String × String)
    (h : commentsOf p.1 ≠ [] → commentsExist p.1 cur = true) :
    commentPhaseStep commentsOf cur p = cur := by
  unfold commentPhaseStep downloadComments
  cases hex : commentsExist p.1 cur with
  | true => simp [hex]
  | false =>
    cases hcs : commentsOf p.1 with
    | nil => simp [hex, hcs]
    | cons a l =>
      have hx := h (by rw [hcs]; simp)
      rw [hex] at hx
      exact absurd hx (by simp)

lemma foldl_commentPhaseStep_fixed (commentsOf : String → List CommentRecord) :
    ∀ (l : List (String × String)) (cur : DB),
      (∀ p ∈ l, commentsOf p.1 ≠ [] → commentsExist p.1 cur = true) →
      l.foldl (commentPhaseStep commentsOf) cur = cur := by
  intro l
  induction l with
  | nil => intro cur _; rfl
  | cons q qs ih =>
    intro cur h
    rw [List.foldl_cons,
      commentPhaseStep_fixed commentsOf cur q (h q (List.mem_cons_self q qs))]
    exact ih cur (fun p hp => h p (List.mem_cons_of_mem q hp))

/-! ## C1: idempotence of the full sync -/

/-- The example listing of two videos used by the concrete full-sync runs. -/
def twoVideoListing : List (String × String) := [("v1", "A"), ("v2", "B")]

/-- A comment fetcher whose records for the two listed videos share the
comment id "c" (comment-id collisions across videos are allowed by the
fetcher's contract and not handled by the code). -/
def clashCommentsOf : String → List CommentRecord := fun v =>
  if v = "v1" then [⟨"c", "t1", "a1", some (PyVal.str "1"), 0⟩]
  else if v = "v2" then [⟨"c", "t2", "a2", some (PyVal.str "2"), 0⟩]
  else []

/-- The state after the first full sync of the clashing example. -/
def clashRun1 : DB :=
  (fullSync "P1" twoVideoListing clashCommentsOf "t0" dbEmpty).getD dbEmpty

/-- C1 counterexample: with the same listing and the same comment records, a
second full sync does NOT leave the tables identical.  Video "v2" never gets
a comment row carrying its id (its only fetched comment id "c" was already
taken by "v1"), so the second run fetches "v2" again and appends a third
`fts_comments` row: the full-text table grows from 2 to 3 entries. -/
theorem c1_counterexample :
    fullSync "P1" twoVideoListing clashCommentsOf "t0" dbEmpty = some clashRun1 ∧
    fullSync "P1" twoVideoListing clashCommentsOf "t0" clashRun1 ≠ some clashRun1 ∧
    clashRun1.fts_comments.length = 2 ∧
    ((fullSync "P1" twoVideoListing clashCommentsOf "t0" clashRun1).getD
      dbEmpty).fts_comments.length = 3 := by
  refine ⟨rfl, ?_, rfl, rfl⟩
  decide

/-- C1 (amended): if all fetched comment ids are fresh with respect to the
initial comment table and pairwise disjoint across distinct listed videos
(the code does not handle comment-id collisions), then a second full sync
with the same listing, the same comment records and the same timestamp
leaves the database unchanged: it returns exactly the state the first run
produced. -/
theorem c1_full_sync_idempotent (url : String) (listing : List (String × String))
    (commentsOf : String → List CommentRecord) (ts : String) (s s1 : DB)
    (H1 : ∀ q ∈ listing, ∀ r ∈ commentsOf q.1, ∀ c ∈ s.comments, c.id ≠ r.cid)
    (H2 : ∀ q ∈ listing, ∀ q' ∈ listing, q.1 ≠ q'.1 →
      ∀ r ∈ commentsOf q.1, ∀ r' ∈ commentsOf q'.1, r.cid ≠ r'.cid)
    (h : fullSync url listing commentsOf ts s = some s1) :
    fullSync url listing commentsOf ts s1 = some s1 := by
  obtain ⟨pid, hpid, hchar⟩ := savePlaylist_char url listing ts s
  unfold fullSync at h
  rw [hchar] at h
  simp only [Option.some.injEq] at h
  subst h
  set sPrep := updatePlaylistTs url ts (insertPlaylistOrIgnore url ts s) with hsPrep
  set sV := listing.foldl (saveVideoStep ts pid) sPrep with hsV
  set s1 := listing.foldl (commentPhaseStep commentsOf) sV with hs1
  have hPl1 : s1.playlists = sV.playlists := foldl_commentPhaseStep_playlists _ _ _
  have hPl2 : sV.playlists = sPrep.playlists := foldl_saveVideoStep_playlists _ _ _ _
  have hVid : s1.videos = sV.videos := foldl_commentPhaseStep_videos _ _ _
  have hPv : s1.playlist_videos = sV.playlist_videos := foldl_commentPhaseStep_pv _ _ _
  have hCm : sV.comments = s.comments := by
    rw [hsV, foldl_saveVideoStep_comments, hsPrep]
    simp
  have hps1 : PlaylistSavedAt url ts s1 :=
    PlaylistSavedAt_congr (hPl1.trans hPl2) (prep_playlistSaved url ts s)
  have hpid1 : findPlaylistId url s1 = some pid := by
    rw [findPlaylistId_congr (hPl1.trans hPl2)]
    exact hpid
  have hvs1 : ∀ p ∈ listing, VideoSavedAt ts pid p.1 s1 := fun p hp =>
    VideoSavedAt_congr hVid hPv (foldl_saveVideoStep_establishes ts pid listing sPrep p hp)
  have hprov : CommentProv s listing commentsOf sV := by
    intro c hc
    rw [hCm] at hc
    exact Or.inl hc
  have hce : ∀ p ∈ listing, commentsOf p.1 ≠ [] → commentsExist p.1 s1 = true :=
    fun p hp hne =>
      commentPhase_exists s listing commentsOf H1 H2 listing sV
        (fun q hq => hq) hprov p hp hne
  unfold fullSync
  rw [savePlaylist_fixed url listing ts s1 pid hps1 hpid1 hvs1]
  simp only []
  rw [foldl_commentPhaseStep_fixed commentsOf listing s1 hce]

/-- A comment fetcher with pairwise distinct comment ids for the two listed
videos. -/
def disjCommentsOf : String → List CommentRecord := fun v =>
  if v = "v1" then [⟨"c1", "t1", "a1", some (PyVal.str "1"), 5⟩]
  else if v = "v2" then [⟨"c2", "t2", "a2", Option.none, 6⟩]
  else []

/-- The state after the first full sync of the collision-free example. -/
def disjRun1 : DB :=
  (fullSync "P1" twoVideoListing disjCommentsOf "t0" dbEmpty).getD dbEmpty

/-- C1 witness: the amended idempotence theorem applied to a concrete
collision-free run. -/
theorem c1_witness :
    fullSync "P1" twoVideoListing disjCommentsOf "t0" disjRun1 = some disjRun1 :=
  c1_full_sync_idempotent "P1" twoVideoListing disjCommentsOf "t0" dbEmpty disjRun1
    (by decide) (by decide) (by rfl)

/-! ## C10: the playlist id lookup never fails -/

/-- C10: in `save_playlist` the SELECT of the playlist's surrogate id by name
always finds a row, because the INSERT OR IGNORE of the playlist row precedes
it: the unguarded `cur.fetchone()[0]` never fails, `save_playlist` always
returns a result, and the returned `vids` list is exactly the presented
`(id, title)` pairs in listing order. -/
theorem c10_select_always_finds (url : String) (listing : List (String × String))
    (ts : String) (s : DB) :
    (∃ pid, findPlaylistId url
      (updatePlaylistTs url ts (insertPlaylistOrIgnore url ts s)) = some pid) ∧
    ∃ s', savePlaylist url listing ts s = some (s', listing) := by
  obtain ⟨pid, hpid, hchar⟩ := savePlaylist_char url listing ts s
  exact ⟨⟨pid, hpid⟩, ⟨_, hchar⟩⟩

/-! ## C3: no fetch when comments already exist -/

/-- C3: for a video that already has at least one persisted comment row,
`download_comments` performs no external fetch (the returned flag is false)
and leaves the database state unchanged. -/
theorem c3_no_fetch_when_comments_exist (vid : String)
    (records : List CommentRecord) (s : DB)
    (h : ∃ c ∈ s.comments, c.video_id = vid) :
    downloadComments vid records s = (s, false) := by
  unfold downloadComments
  rw [(commentsExist_true_iff vid s).mpr h]
  simp

/-- A small state with one persisted comment row for video "v9". -/
def c3DB : DB := { dbEmpty with comments := [⟨"c9", "v9", "t", "a", 0, 0⟩] }

/-- C3 witness: the theorem applied to the concrete one-comment state. -/
theorem c3_witness :
    downloadComments "v9" [⟨"cX", "tX", "aX", Option.none, 1⟩] c3DB = (c3DB, false) :=
  c3_no_fetch_when_comments_exist "v9" [⟨"cX", "tX", "aX", Option.none, 1⟩] c3DB
    (by decide)

/-! ## C5: vote coercion -/

/-- C5: every comment row persisted by `download_comments` is either a
pre-existing row or is built from a fetched record with its votes value equal
to the coercion of the record's vote field; the coercion yields the integer
parse of a string field that parses, and 0 on a non-parsing string, on `None`
and on a missing field (the parse failure is absorbed, never raised). -/
theorem c5_vote_coercion :
    (∀ (vid : String) (records : List CommentRecord) (s : DB) (c : CommentRow),
      c ∈ (downloadComments vid records s).1.comments →
      c ∈ s.comments ∨
        ∃ r ∈ records, c = mkCommentRow vid r ∧ c.votes = coerceVotes r.votes) ∧
    (∀ (t : String) (n : Int), pyIntOfStr t = some n →
      coerceVotes (some (PyVal.str t)) = n) ∧
    (∀ t : String, pyIntOfStr t = Option.none →
      coerceVotes (some (PyVal.str t)) = 0) ∧
    coerceVotes (some PyVal.none) = 0 ∧
    coerceVotes Option.none = 0 := by
  refine ⟨?_, ?_, ?_, rfl, rfl⟩
  · intro vid records s c h
    rcases downloadComments_comments_cases vid records s h with h1 | ⟨r, hr, heq⟩
    · exact Or.inl h1
    · exact Or.inr ⟨r, hr, heq, by simp [heq, mkCommentRow]⟩
  · intro t n h
    by_cases ht : t = ""
    · subst ht
      have hz : pyIntOfStr "" = Option.none := by decide
      rw [hz] at h
      exact Option.noConfusion h
    · have h1 : pyOr0 (PyVal.str t) = PyVal.str t := by simp [pyOr0, ht]
      have h2 : pyToInt (PyVal.str t) = some n := h
      simp [coerceVotes, h1, h2]
  · intro t h
    by_cases ht : t = ""
    · subst ht; decide
    · have h1 : pyOr0 (PyVal.str t) = PyVal.str t := by simp [pyOr0, ht]
      have h2 : pyToInt (PyVal.str t) = Option.none := h
      simp [coerceVotes, h1, h2]

/-- C5 witness: the coercion facts instantiated at the concrete record with
vote string "12" inserted for video "v1", and at "1.2K", `None` and missing
fields. -/
theorem c5_witness :
    (mkCommentRow "v1" ⟨"c1", "t", "a", some (PyVal.str "12"), 0⟩ ∈ dbEmpty.comments ∨
      ∃ r ∈ [(⟨"c1", "t", "a", some (PyVal.str "12"), 0⟩ : CommentRecord)],
        mkCommentRow "v1" ⟨"c1", "t", "a", some (PyVal.str "12"), 0⟩ =
          mkCommentRow "v1" r ∧
        (mkCommentRow "v1" ⟨"c1", "t", "a", some (PyVal.str "12"), 0⟩).votes =
          coerceVotes r.votes) ∧
    coerceVotes (some (PyVal.str "12")) = 12 ∧
    coerceVotes (some (PyVal.str "1.2K")) = 0 ∧
    coerceVotes (some PyVal.none) = 0 ∧
    coerceVotes Option.none = 0 :=
  ⟨c5_vote_coercion.1 "v1" [⟨"c1", "t", "a", some (PyVal.str "12"), 0⟩] dbEmpty
      (mkCommentRow "v1" ⟨"c1", "t", "a", some (PyVal.str "12"), 0⟩) (by decide),
   c5_vote_coercion.2.1 "12" 12 (by decide),
   c5_vote_coercion.2.2.1 "1.2K" (by decide),
   c5_vote_coercion.2.2.2.1,
   c5_vote_coercion.2.2.2.2⟩

/-! ## C4: no title full-text entries -/

/-- The state after saving the two-item playlist of the specification's
scenario on a fresh database. -/
def c4SyncDB : DB :=
  ((savePlaylist "P1" [("v1", "Title A"), ("v2", "Title B")] "t0" dbEmpty).getD
    (dbEmpty, [])).1

/-- C4 counterexample: syncing a playlist with two items on a fresh database
yields 1 playlist row, 2 video rows and 2 membership rows, but ZERO full-text
entries — the schema created by `init_db` has no title full-text table at all
(`fts_comments` is its only fts table) and `save_playlist` writes no
full-text rows, so the store does not contain two title full-text entries. -/
theorem c4_counterexample :
    savePlaylist "P1" [("v1", "Title A"), ("v2", "Title B")] "t0" dbEmpty =
      some (c4SyncDB, [("v1", "Title A"), ("v2", "Title B")]) ∧
    c4SyncDB.playlists.length = 1 ∧
    c4SyncDB.videos.length = 2 ∧
    c4SyncDB.playlist_videos.length = 2 ∧
    c4SyncDB.fts_comments = [] ∧
    c4SyncDB.fts_comments.length ≠ 2 := by
  exact ⟨rfl, rfl, rfl, rfl, rfl, by decide⟩

/-- C4 (amended): reconciling a playlist listing writes no full-text entries
whatsoever: `save_playlist` leaves the (comment) full-text table exactly as
it was, and no title full-text table exists in the schema. -/
theorem c4_save_playlist_writes_no_fts (url : String)
    (listing : List (String × String)) (ts : String) (s s' : DB)
    (vids : List (String × String))
    (h : savePlaylist url listing ts s = some (s', vids)) :
    s'.fts_comments = s.fts_comments := by
  obtain ⟨pid, hpid, hchar⟩ := savePlaylist_char url listing ts s
  rw [hchar] at h
  simp only [Option.some.injEq, Prod.mk.injEq] at h
  obtain ⟨h1, h2⟩ := h
  rw [← h1, foldl_saveVideoStep_fts]
  simp

/-- C4 witness: the amended theorem applied to the concrete two-item sync. -/
theorem c4_witness : c4SyncDB.fts_comments = dbEmpty.fts_comments :=
  c4_save_playlist_writes_no_fts "P1" [("v1", "Title A"), ("v2", "Title B")] "t0"
    dbEmpty c4SyncDB [("v1", "Title A"), ("v2", "Title B")] (by rfl)

/-! ## C6: resurrection without title overwrite -/

/-- The `(id, title)` projection of a video row: the columns `save_playlist`
never updates on an existing row. -/
def vidTitle (r : VideoRow) : String × String := (r.id, r.title)

lemma saveVideoStep_vidTitle (ts : String) (pid : Nat) (s : DB) (p : String × String) :
    ∃ xt : List (String × String),
      (saveVideoStep ts pid s p).videos.map vidTitle = s.videos.map vidTitle ++ xt ∧
      ∀ q ∈ xt, ∀ r ∈ s.videos, r.id ≠ q.1 := by
  unfold saveVideoStep
  rw [insertMembershipOrIgnore_videos]
  have hupd : ∀ (s0 : DB),
      (updateVideoRow p.1 ts s0).videos.map vidTitle = s0.videos.map vidTitle := by
    intro s0
    unfold updateVideoRow
    exact map_map_eq_of
      (fun r => by by_cases hc : r.id = p.1 <;> simp [vidTitle, hc]) s0.videos
  rw [hupd]
  unfold insertVideoOrIgnore
  cases hc : s.videos.any (fun r => r.id = p.1) with
  | true => exact ⟨[], by simp [hc], by simp⟩
  | false =>
    refine ⟨[(p.1, p.2)], ?_, ?_⟩
    · simp [hc, vidTitle]
    · intro q hq r hr
      simp only [List.mem_singleton] at hq
      subst hq
      have hall := List.any_eq_false.mp hc
      have := hall r hr
      simpa using this

lemma foldl_saveVideoStep_vidTitle (ts : String) (pid : Nat) :
    ∀ (l : List (String × String)) (s : DB),
      ∃ xt : List (String × String),
        (l.foldl (saveVideoStep ts pid) s).videos.map vidTitle =
          s.videos.map vidTitle ++ xt ∧
        ∀ q ∈ xt, ∀ r ∈ s.videos, r.id ≠ q.1 := by
  intro l
  induction l with
  | nil => intro s; exact ⟨[], by simp, by simp⟩
  | cons p ps ih =>
    intro s
    rw [List.foldl_cons]
    obtain ⟨xt1, h1, h1f⟩ := saveVideoStep_vidTitle ts pid s p
    obtain ⟨xt2, h2, h2f⟩ := ih (saveVideoStep ts pid s p)
    refine ⟨xt1 ++ xt2, ?_, ?_⟩
    · rw [h2, h1, List.append_assoc]
    · intro q hq r hr
      rcases List.mem_append.mp hq with hq1 | hq2
      · exact h1f q hq1 r hr
      · have hmem : vidTitle r ∈ (saveVideoStep ts pid s p).videos.map vidTitle := by
          rw [h1]
          exact List.mem_append.mpr (Or.inl (List.mem_map.mpr ⟨r, hr, rfl⟩))
        obtain ⟨r', hr', hR⟩ := List.mem_map.mp hmem
        have hsame : r'.id = r.id := congrArg Prod.fst hR
        rw [← hsame]
        exact h2f q hq2 r' hr'

/-- C6: a video row whose availability flag is false, re-observed in a
subsequent listing sync, has its availability flag reset to true and its
timestamp refreshed, while its stored title is left unchanged (the title
presented in the new listing is not written over the existing one).  The
Nodup hypothesis is the `videos.id` PRIMARY KEY constraint on the prior
state. -/
theorem c6_resurrection (url : String) (listing : List (String × String))
    (ts : String) (s s' : DB) (vids : List (String × String))
    (v newTitle : String) (rold : VideoRow)
    (hnodup : (s.videos.map VideoRow.id).Nodup)
    (hrold : rold ∈ s.videos) (hid : rold.id = v)
    (hunavail : rold.is_available = false)
    (hmem : (v, newTitle) ∈ listing)
    (h : savePlaylist url listing ts s = some (s', vids)) :
    (∃ r' ∈ s'.videos, r'.id = v) ∧
    ∀ r' ∈ s'.videos, r'.id = v →
      r'.is_available = true ∧ r'.last_updated = ts ∧ r'.title = rold.title := by
  obtain ⟨pid, hpid, hchar⟩ := savePlaylist_char url listing ts s
  rw [hchar] at h
  simp only [Option.some.injEq, Prod.mk.injEq] at h
  obtain ⟨h1, h2⟩ := h
  subst h1
  have hvs := foldl_saveVideoStep_establishes ts pid listing
    (updatePlaylistTs url ts (insertPlaylistOrIgnore url ts s)) (v, newTitle) hmem
  refine ⟨hvs.1, ?_⟩
  intro r' hr' hid'
  have hAvail := hvs.2.1 r' hr' hid'
  refine ⟨hAvail.1, hAvail.2, ?_⟩
  obtain ⟨xt, hxt, hxtf⟩ := foldl_saveVideoStep_vidTitle ts pid listing
    (updatePlaylistTs url ts (insertPlaylistOrIgnore url ts s))
  have hprepv : (updatePlaylistTs url ts (insertPlaylistOrIgnore url ts s)).videos
      = s.videos := by simp
  rw [hprepv] at hxt hxtf
  have hmem' : vidTitle r' ∈
      (listing.foldl (saveVideoStep ts pid)
        (updatePlaylistTs url ts (insertPlaylistOrIgnore url ts s))).videos.map vidTitle :=
    List.mem_map.mpr ⟨r', hr', rfl⟩
  rw [hxt] at hmem'
  rcases List.mem_append.mp hmem' with hin | hin
  · obtain ⟨r0, hr0, hR⟩ := List.mem_map.mp hin
    have hid0 : r0.id = v := by rw [← hid']; exact congrArg Prod.fst hR
    have hsame : r0 = rold :=
      List.inj_on_of_nodup_map hnodup hr0 hrold (by rw [hid0, hid])
    have htit : r0.title = r'.title := congrArg Prod.snd hR
    rw [← htit, hsame]
  · exfalso
    refine hxtf (vidTitle r') hin rold hrold ?_
    show rold.id = (vidTitle r').1
    rw [hid]
    exact hid'.symm

/-- A prior state holding video "v1" marked unavailable with title
"Old title". -/
def c6DB : DB := { dbEmpty with videos := [⟨"v1", "Old title", false, "t0"⟩] }

/-- The state after re-observing "v1" (now titled "New title") in a listing
sync at time "t1". -/
def c6DBAfter : DB :=
  ((savePlaylist "P1" [("v1", "New title")] "t1" c6DB).getD (dbEmpty, [])).1

/-- C6 witness: the resurrection theorem applied to the concrete unavailable
row. -/
theorem c6_witness :
    (∃ r' ∈ c6DBAfter.videos, r'.id = "v1") ∧
    ∀ r' ∈ c6DBAfter.videos, r'.id = "v1" →
      r'.is_available = true ∧ r'.last_updated = "t1" ∧ r'.title = "Old title" :=
  c6_resurrection "P1" [("v1", "New title")] "t1" c6DB c6DBAfter
    [("v1", "New title")] "v1" "New title" ⟨"v1", "Old title", false, "t0"⟩
    (by decide) (by decide) rfl rfl (by decide) (by rfl)

/-! ## C7: dedup invariant over reachable states -/

/-- The uniqueness invariant enforced by the schema's PRIMARY KEY / UNIQUE
constraints on `comments.id`, `playlists.name` and
`playlist_videos.(playlist_id, video_id)`. -/
def Dedup (s : DB) : Prop :=
  (s.comments.map CommentRow.id).Nodup ∧
  (s.playlists.map PlaylistRow.name).Nodup ∧
  (s.playlist_videos.map (fun m => (m.playlist_id, m.video_id))).Nodup

lemma insertPlaylistOrIgnore_names_nodup (url ts : String) (s : DB)
    (h : (s.playlists.map PlaylistRow.name).Nodup) :
    ((insertPlaylistOrIgnore url ts s).playlists.map PlaylistRow.name).Nodup := by
  unfold insertPlaylistOrIgnore
  cases hc : s.playlists.any (fun r => r.name = url) with
  | true => simpa [hc] using h
  | false =>
    simp only [if_neg Bool.false_ne_true, List.map_append]
    refine nodup_append_singleton h ?_
    intro hmem
    obtain ⟨r, hr, hname⟩ := List.mem_map.mp hmem
    have hne := List.any_eq_false.mp hc r hr
    simp at hne
    exact hne hname

lemma updatePlaylistTs_names (url ts : String) (s : DB) :
    (updatePlaylistTs url ts s).playlists.map PlaylistRow.name =
      s.playlists.map PlaylistRow.name := by
  unfold updatePlaylistTs
  exact map_map_eq_of (fun r => by by_cases hc : r.name = url <;> simp [hc]) s.playlists

lemma insertMembershipOrIgnore_keys_nodup (pid : Nat) (vid ts : String) (s : DB)
    (h : (s.playlist_videos.map (fun m => (m.playlist_id, m.video_id))).Nodup) :
    ((insertMembershipOrIgnore pid vid ts s).playlist_videos.map
      (fun m => (m.playlist_id, m.video_id))).Nodup := by
  unfold insertMembershipOrIgnore
  cases hc : s.playlist_videos.any (fun m => m.playlist_id = pid ∧ m.video_id = vid) with
  | true => simpa [hc] using h
  | false =>
    simp only [if_neg Bool.false_ne_true, List.map_append]
    refine nodup_append_singleton h ?_
    intro hmem
    obtain ⟨m, hm, hk⟩ := List.mem_map.mp hmem
    have hne := List.any_eq_false.mp hc m hm
    have hk1 : m.playlist_id = pid := congrArg Prod.fst hk
    have hk2 : m.video_id = vid := congrArg Prod.snd hk
    simp at hne
    exact hne hk1 hk2

lemma insertCommentOrIgnore_ids_nodup (row : CommentRow) (s : DB)
    (h : (s.comments.map CommentRow.id).Nodup) :
    ((insertCommentOrIgnore row s).comments.map CommentRow.id).Nodup := by
  unfold insertCommentOrIgnore
  cases hc : s.comments.any (fun c0 => c0.id = row.id) with
  | true => simpa [hc] using h
  | false =>
    simp only [if_neg Bool.false_ne_true, List.map_append]
    refine nodup_append_singleton h ?_
    intro hmem
    obtain ⟨c, hcm, hcid⟩ := List.mem_map.mp hmem
    have hne := List.any_eq_false.mp hc c hcm
    simp at hne
    exact hne hcid

lemma prep_dedup (url ts : String) (s : DB) (h : Dedup s) :
    Dedup (updatePlaylistTs url ts (insertPlaylistOrIgnore url ts s)) := by
  obtain ⟨h1, h2, h3⟩ := h
  refine ⟨by simpa using h1, ?_, by simpa using h3⟩
  rw [updatePlaylistTs_names]
  exact insertPlaylistOrIgnore_names_nodup url ts s h2

lemma saveVideoStep_dedup (ts : String) (pid : Nat) (s : DB) (p : String × String)
    (h : Dedup s) : Dedup (saveVideoStep ts pid s p) := by
  obtain ⟨h1, h2, h3⟩ := h
  refine ⟨by simpa using h1, by simpa using h2, ?_⟩
  unfold saveVideoStep
  have hpv : (updateVideoRow p.1 ts (insertVideoOrIgnore p.1 p.2 ts s)).playlist_videos
      = s.playlist_videos := by simp
  have := insertMembershipOrIgnore_keys_nodup pid p.1 ts
    (updateVideoRow p.1 ts (insertVideoOrIgnore p.1 p.2 ts s)) (by rw [hpv]; exact h3)
  exact this

lemma savePlaylist_dedup (url : String) (listing : List (String × String))
    (ts : String) (s s' : DB) (vids : List (String × String))
    (hs : savePlaylist url listing ts s = some (s', vids)) (h : Dedup s) :
    Dedup s' := by
  obtain ⟨pid, hpid, hchar⟩ := savePlaylist_char url listing ts s
  rw [hchar] at hs
  simp only [Option.some.injEq, Prod.mk.injEq] at hs
  obtain ⟨h1, _⟩ := hs
  rw [← h1]
  exact foldl_preserves (saveVideoStep ts pid)
    (fun s0 p hp => saveVideoStep_dedup ts pid s0 p hp) listing _
    (prep_dedup url ts s h)

lemma downloadComments_dedup (vid : String) (rs : List CommentRecord) (s : DB)
    (h : Dedup s) : Dedup (downloadComments vid rs s).1 := by
  obtain ⟨h1, h2, h3⟩ := h
  refine ⟨?_, by simpa using h2, by simpa using h3⟩
  unfold downloadComments
  cases hex : commentsExist vid s with
  | true => simpa [hex] using h1
  | false =>
    simp only [if_neg Bool.false_ne_true]
    refine foldl_preserves
      (P := fun st => (st.comments.map CommentRow.id).Nodup) (commentStep vid)
      ?_ rs s h1
    intro st r hst
    rw [commentStep_comments_eq]
    exact insertCommentOrIgnore_ids_nodup _ st hst

lemma filter_key_len_le_one {α β : Type} [DecidableEq β] (f : α → β) :
    ∀ (l : List α), (l.map f).Nodup →
      ∀ k : β, (l.filter (fun x => f x = k)).length ≤ 1 := by
  intro l
  induction l with
  | nil => intro _ k; simp
  | cons a t ih =>
    intro h k
    rw [List.map_cons, List.nodup_cons] at h
    obtain ⟨hna, ht⟩ := h
    rw [List.filter_cons]
    by_cases hk : f a = k
    · have hnil : t.filter (fun x => f x = k) = [] := by
        rw [List.filter_eq_nil_iff]
        intro x hx hfx
        refine hna ?_
        have hfx' : f x = k := by simpa using hfx
        rw [hk, ← hfx']
        exact List.mem_map.mpr ⟨x, hx, rfl⟩
      simp [hk, hnil]
    · have hdf : decide (f a = k) = false := by simp [hk]
      rw [hdf]
      simpa using ih ht k

/-- C7: in every state reachable by any sequence of `save_playlist` and
`download_comments` operations from a fresh database, there is at most one
comment row per comment id, at most one playlist row per name (hence exactly
one per present name), and at most one membership row per
`(playlist_id, video_id)` pair. -/
theorem c7_dedup_invariant (s : DB) (h : Reachable s) :
    (∀ cid : String, (s.comments.filter (fun c => c.id = cid)).length ≤ 1) ∧
    (∀ name : String, (s.playlists.filter (fun r => r.name = name)).length ≤ 1) ∧
    (∀ k : Nat × String,
      (s.playlist_videos.filter (fun m => (m.playlist_id, m.video_id) = k)).length ≤ 1) := by
  have hd : Dedup s := by
    induction h with
    | init => exact ⟨List.nodup_nil, List.nodup_nil, List.nodup_nil⟩
    | save h hs ih => exact savePlaylist_dedup _ _ _ _ _ _ hs ih
    | comments h ih => exact downloadComments_dedup _ _ _ ih
  exact ⟨fun cid => filter_key_len_le_one CommentRow.id s.comments hd.1 cid,
    fun name => filter_key_len_le_one PlaylistRow.name s.playlists hd.2.1 name,
    fun k => filter_key_len_le_one (fun m => (m.playlist_id, m.video_id))
      s.playlist_videos hd.2.2 k⟩

/-- A concrete state obtained by one `save_playlist` call on a fresh
database. -/
def c7Save : DB := ((savePlaylist "PL" [("w1", "T1")] "u0" dbEmpty).getD (dbEmpty, [])).1

/-- The concrete state after additionally syncing one comment for "w1". -/
def c7DB : DB := (downloadComments "w1" [⟨"k1", "txt", "au", Option.none, 0⟩] c7Save).1

/-- C7 witness: the invariant theorem applied to the concrete reachable
state. -/
theorem c7_witness :
    (∀ cid : String, (c7DB.comments.filter (fun c => c.id = cid)).length ≤ 1) ∧
    (∀ name : String, (c7DB.playlists.filter (fun r => r.name = name)).length ≤ 1) ∧
    (∀ k : Nat × String,
      (c7DB.playlist_videos.filter (fun m => (m.playlist_id, m.video_id) = k)).length ≤ 1) :=
  c7_dedup_invariant c7DB
    (Reachable.comments (Reachable.save Reachable.init
      (by rfl : savePlaylist "PL" [("w1", "T1")] "u0" dbEmpty =
        some (c7Save, [("w1", "T1")]))))

/-! ## C2: the retrying executor -/

lemma executeWithRetryAux_succ_ok (attempts : Nat → Option SqlError) (i fuel : Nat)
    (h : attempts i = Option.none) :
    executeWithRetryAux attempts i (fuel + 1) = some (ExecOutcome.success i) := by
  unfold executeWithRetryAux
  rw [h]

lemma executeWithRetryAux_succ_locked (attempts : Nat → Option SqlError)
    (i fuel : Nat) (e : SqlError) (h : attempts i = some e)
    (hl : isLockedError e = true) :
    executeWithRetryAux attempts i (fuel + 1) = executeWithRetryAux attempts (i + 1) fuel := by
  conv_lhs => unfold executeWithRetryAux
  rw [h]
  simp [hl]

lemma executeWithRetryAux_succ_raise (attempts : Nat → Option SqlError)
    (i fuel : Nat) (e : SqlError) (h : attempts i = some e)
    (hl : isLockedError e = false) :
    executeWithRetryAux attempts i (fuel + 1) = some (ExecOutcome.raised i e) := by
  unfold executeWithRetryAux
  rw [h]
  simp [hl]

lemma executeWithRetryAux_skip (attempts : Nat → Option SqlError) :
    ∀ (j i fuel : Nat),
      (∀ m, i ≤ m → m < i + j → ∃ e, attempts m = some e ∧ isLockedError e = true) →
      j ≤ fuel →
      executeWithRetryAux attempts i fuel =
        executeWithRetryAux attempts (i + j) (fuel - j) := by
  intro j
  induction j with
  | zero => intro i fuel _ _; simp
  | succ j ih =>
    intro i fuel h hle
    obtain ⟨f, rfl⟩ : ∃ f, fuel = f + 1 := ⟨fuel - 1, by omega⟩
    obtain ⟨e, he, hl⟩ := h i (le_refl i) (by omega)
    rw [executeWithRetryAux_succ_locked attempts i f e he hl]
    have hrec := ih (i + 1) f
      (fun m hm1 hm2 => h m (by omega) (by omega)) (by omega)
    rw [hrec]
    have h1 : i + 1 + j = i + (j + 1) := by omega
    have h2 : f - j = f + 1 - (j + 1) := by omega
    rw [h1, h2]

/-- C2: `execute_with_retry` (i) re-raises immediately, without any retry,
a first-attempt failure that is not a "database is locked" operational error
(such as a constraint violation); (ii) sleeps and retries through any finite
run of "database is locked" failures — `n` locked failures cost exactly `n`
sleeping retries and then the operation's success is returned; (iii) retries
without bound: if every attempt fails with "database is locked" the loop
never terminates, no matter how far it is unfolded (`Option.none` = still
looping at every fuel). -/
theorem c2_retry_semantics :
    (∀ (attempts : Nat → Option SqlError) (e : SqlError),
      attempts 0 = some e → isLockedError e = false →
      ∀ fuel, 1 ≤ fuel →
        executeWithRetry attempts fuel = some (ExecOutcome.raised 0 e)) ∧
    (∀ (attempts : Nat → Option SqlError) (n : Nat),
      (∀ i, i < n → ∃ e, attempts i = some e ∧ isLockedError e = true) →
      attempts n = Option.none →
      ∀ fuel, n < fuel →
        executeWithRetry attempts fuel = some (ExecOutcome.success n)) ∧
    (∀ attempts : Nat → Option SqlError,
      (∀ i, ∃ e, attempts i = some e ∧ isLockedError e = true) →
      ∀ fuel, executeWithRetry attempts fuel = Option.none) := by
  refine ⟨?_, ?_, ?_⟩
  · intro attempts e h hne fuel hf
    obtain ⟨f, rfl⟩ : ∃ f, fuel = f + 1 := ⟨fuel - 1, by omega⟩
    exact executeWithRetryAux_succ_raise attempts 0 f e h hne
  · intro attempts n h hn fuel hf
    unfold executeWithRetry
    have hskip := executeWithRetryAux_skip attempts n 0 fuel
      (fun m hm1 hm2 => h m (by omega)) (by omega)
    rw [Nat.zero_add] at hskip
    rw [hskip]
    obtain ⟨f, hf2⟩ : ∃ f, fuel - n = f + 1 := ⟨fuel - n - 1, by omega⟩
    rw [hf2]
    exact executeWithRetryAux_succ_ok attempts n f hn
  · intro attempts h fuel
    unfold executeWithRetry
    have haux : ∀ (f i : Nat), executeWithRetryAux attempts i f = Option.none := by
      intro f
      induction f with
      | zero => intro i; rfl
      | succ f ih =>
        intro i
        obtain ⟨e, he, hl⟩ := h i
        rw [executeWithRetryAux_succ_locked attempts i f e he hl]
        exact ih (i + 1)
    exact haux fuel 0

/-- The attempt trace of the C2 witness: two "database is locked" failures,
then success. -/
def twoLockedAttempts : Nat → Option SqlError := fun i =>
  if i < 2 then some (SqlError.operational "database is locked") else Option.none

/-- C2 witness: the executor semantics applied to a concrete trace with two
locked failures (two sleeping retries, then success) and to a concrete
constraint violation (raised immediately with zero retries). -/
theorem c2_witness :
    executeWithRetry twoLockedAttempts 5 = some (ExecOutcome.success 2) ∧
    executeWithRetry
        (fun _ => some (SqlError.otherExc "UNIQUE constraint failed: comments.id")) 5 =
      some (ExecOutcome.raised 0
        (SqlError.otherExc "UNIQUE constraint failed: comments.id")) :=
  ⟨c2_retry_semantics.2.1 twoLockedAttempts 2
      (fun i hi => ⟨SqlError.operational "database is locked",
        by simp [twoLockedAttempts, hi], by decide⟩)
      (by simp [twoLockedAttempts]) 5 (by omega),
   c2_retry_semantics.1
      (fun _ => some (SqlError.otherExc "UNIQUE constraint failed: comments.id"))
      (SqlError.otherExc "UNIQUE constraint failed: comments.id")
      rfl (by decide) 5 (by omega)⟩

/-! ## C8, C9: listing line parsing -/

/-- What the parsing loop does to a single line: an empty line yields nothing,
otherwise the line's split at the first tab (when it has one). -/
def lineParse (l : String) : Option (String × String) :=
  if l = "" then Option.none else splitTabOnce l

/-- Whether the loop reports a line as a parse error: nonempty and without a
tab. -/
def lineMalformed (l : String) : Bool :=
  decide (l ≠ "") && (splitTabOnce l).isNone

lemma parseLineStep_eq (acc : List (String × String) × List String) (l : String) :
    parseLineStep acc l =
      (acc.1 ++ (lineParse l).toList,
       acc.2 ++ if lineMalformed l then [l] else []) := by
  unfold parseLineStep lineParse lineMalformed
  by_cases hl : l = ""
  · simp [hl]
  · cases hsp : splitTabOnce l with
    | none => simp [hl, hsp]
    | some p => simp [hl, hsp]

lemma parseLines_foldl_char :
    ∀ (ls : List String) (acc1 : List (String × String)) (acc2 : List String),
      ls.foldl parseLineStep (acc1, acc2) =
        (acc1 ++ ls.filterMap lineParse, acc2 ++ ls.filter lineMalformed) := by
  intro ls
  induction ls with
  | nil => intro acc1 acc2; simp
  | cons l rest ih =>
    intro acc1 acc2
    rw [List.foldl_cons, parseLineStep_eq, ih, List.filterMap_cons, List.filter_cons]
    cases hp : lineParse l <;> cases hm : lineMalformed l <;>
      simp [hp, hm, List.append_assoc]

lemma parseLines_eq (ls : List String) :
    parseLines ls = (ls.filterMap lineParse, ls.filter lineMalformed) := by
  unfold parseLines
  rw [parseLines_foldl_char ls [] []]
  simp

lemma isSome_map {α β : Type} (f : α → β) (o : Option α) :
    (o.map f).isSome = o.isSome := by
  cases o <;> rfl

lemma splitAtFirstTab_isSome :
    ∀ cs : List Char, (splitAtFirstTab cs).isSome = true ↔ '\t' ∈ cs := by
  intro cs
  induction cs with
  | nil => simp [splitAtFirstTab]
  | cons c cs ih =>
    unfold splitAtFirstTab
    by_cases hc : c = '\t'
    · simp [hc]
    · rw [if_neg hc, isSome_map, ih]
      simp [List.mem_cons, Ne.symm hc]

lemma splitAtFirstTab_eq :
    ∀ (cs xs ys : List Char), splitAtFirstTab cs = some (xs, ys) →
      cs = xs ++ '\t' :: ys ∧ '\t' ∉ xs := by
  intro cs
  induction cs with
  | nil => intro xs ys h; exact absurd h (by simp [splitAtFirstTab])
  | cons c cs ih =>
    intro xs ys h
    unfold splitAtFirstTab at h
    by_cases hc : c = '\t'
    · rw [if_pos hc] at h
      simp only [Option.some.injEq, Prod.mk.injEq] at h
      obtain ⟨h1, h2⟩ := h
      subst h1
      subst h2
      exact ⟨by rw [hc]; simp, by simp⟩
    · rw [if_neg hc] at h
      cases hsp : splitAtFirstTab cs with
      | none => rw [hsp] at h; exact Option.noConfusion h
      | some p =>
        rw [hsp] at h
        simp only [Option.map_some', Option.some.injEq, Prod.mk.injEq] at h
        obtain ⟨h1, h2⟩ := h
        obtain ⟨hcs, hnot⟩ := ih p.1 p.2 (by rw [hsp])
        subst h1
        subst h2
        constructor
        · rw [List.cons_append]
          rw [← hcs]
        · intro hmem
          rcases List.mem_cons.mp hmem with h3 | h3
          · exact hc h3.symm
          · exact hnot h3

lemma strMk_data (l : String) : String.mk l.data = l := rfl

lemma splitTabOnce_isSome (l : String) :
    (splitTabOnce l).isSome = true ↔ '\t' ∈ l.data := by
  unfold splitTabOnce
  rw [isSome_map]
  exact splitAtFirstTab_isSome l.data

lemma splitTabOnce_eq (l a b : String) (h : splitTabOnce l = some (a, b)) :
    l = a ++ "\t" ++ b ∧ '\t' ∉ a.data := by
  unfold splitTabOnce at h
  cases hsp : splitAtFirstTab l.data with
  | none => rw [hsp] at h; exact Option.noConfusion h
  | some p =>
    rw [hsp] at h
    simp only [Option.map_some', Option.some.injEq, Prod.mk.injEq] at h
    obtain ⟨h1, h2⟩ := h
    obtain ⟨hcs, hnot⟩ := splitAtFirstTab_eq l.data p.1 p.2 (by rw [hsp])
    constructor
    · rw [← h1, ← h2]
      have hmk : String.mk l.data = String.mk (p.1 ++ '\t' :: p.2) :=
        congrArg String.mk hcs
      rw [strMk_data] at hmk
      rw [hmk]
      apply String.ext
      simp [String.data_append]
    · rw [← h1]
      exact hnot

/-- C9 counterexample: the line with two tabs, `"a\tb\tc"`, does not split
into exactly two tab-separated fields, yet it is ACCEPTED (as the pair
`("a", "b\tc")`, the split happening only at the first tab) rather than being
reported as a parse error and skipped: the error list stays empty. -/
theorem c9_counterexample :
    parseLines ["a\tb\tc"] = ([("a", "b\tc")], []) ∧
    parseLines ["a\tb\tc"] ≠ ([], ["a\tb\tc"]) := by
  refine ⟨rfl, ?_⟩
  decide

/-- C9 (amended): a line of the listing output is accepted as an
`(item id, title)` pair exactly when it is nonempty and contains at least one
tab; it is split at the FIRST tab only, the title keeping any further tabs,
so lines with more than one tab are accepted rather than reported.  A
nonempty line with no tab is reported as a parse error and skipped; an empty
line is skipped silently without a report. -/
theorem c9_line_acceptance :
    (∀ ls : List String,
      parseLines ls = (ls.filterMap lineParse, ls.filter lineMalformed)) ∧
    (∀ l : String, (lineParse l).isSome = true ↔ (l ≠ "" ∧ '\t' ∈ l.data)) ∧
    (∀ l a b : String, lineParse l = some (a, b) →
      l = a ++ "\t" ++ b ∧ '\t' ∉ a.data) ∧
    (∀ l : String, lineMalformed l = true ↔ (l ≠ "" ∧ '\t' ∉ l.data)) := by
  refine ⟨parseLines_eq, ?_, ?_, ?_⟩
  · intro l
    unfold lineParse
    by_cases hl : l = ""
    · simp [hl]
    · rw [if_neg hl]
      rw [splitTabOnce_isSome]
      simp [hl]
  · intro l a b h
    unfold lineParse at h
    by_cases hl : l = ""
    · rw [if_pos hl] at h; exact Option.noConfusion h
    · rw [if_neg hl] at h
      exact splitTabOnce_eq l a b h
  · intro l
    unfold lineMalformed
    by_cases hl : l = ""
    · simp [hl]
    · have hd : (decide (l ≠ "")) = true := by simp [hl]
      rw [hd, Bool.true_and]
      constructor
      · intro hn
        refine ⟨hl, ?_⟩
        intro hmem
        have hs := (splitTabOnce_isSome l).mpr hmem
        rw [Option.isNone_iff_eq_none] at hn
        rw [hn] at hs
        simp at hs
      · rintro ⟨_, hmem⟩
        cases hsp : splitTabOnce l with
        | none => rfl
        | some p =>
          exact absurd ((splitTabOnce_isSome l).mp (by rw [hsp]; rfl)) hmem

/-- C9 witness: the amended acceptance characterization applied to the
two-tab line. -/
theorem c9_witness :
    ("a\tb\tc" = "a" ++ "\t" ++ "b\tc" ∧ '\t' ∉ "a".data) ∧
    (lineMalformed "onlyoneid" = true ↔ ("onlyoneid" ≠ "" ∧ '\t' ∉ "onlyoneid".data)) :=
  ⟨c9_line_acceptance.2.2.1 "a\tb\tc" "a" "b\tc" (by decide),
   c9_line_acceptance.2.2.2 "onlyoneid"⟩

/-- C8: a listing line without a tab (such as "onlyoneid") is reported as a
parse error, contributes no `(id, title)` pair to the returned list (every
returned pair comes from the split of some line), and every well-formed line
in the same batch still contributes its pair. -/
theorem c8_malformed_line_skipped :
    (∀ (ls : List String) (l : String), l ∈ ls → l ≠ "" →
      splitTabOnce l = Option.none → l ∈ (parseLines ls).2) ∧
    (∀ (ls : List String) (p : String × String), p ∈ (parseLines ls).1 →
      ∃ l ∈ ls, splitTabOnce l = some p) ∧
    (∀ (ls : List String) (l : String) (p : String × String), l ∈ ls →
      splitTabOnce l = some p → p ∈ (parseLines ls).1) := by
  refine ⟨?_, ?_, ?_⟩
  · intro ls l hmem hne hsp
    rw [parseLines_eq]
    refine List.mem_filter.mpr ⟨hmem, ?_⟩
    unfold lineMalformed
    simp [hne, hsp]
  · intro ls p hp
    rw [parseLines_eq] at hp
    obtain ⟨l, hl, hlp⟩ := List.mem_filterMap.mp hp
    refine ⟨l, hl, ?_⟩
    unfold lineParse at hlp
    by_cases hle : l = ""
    · rw [if_pos hle] at hlp; exact Option.noConfusion hlp
    · rw [if_neg hle] at hlp; exact hlp
  · intro ls l p hmem hsp
    rw [parseLines_eq]
    refine List.mem_filterMap.mpr ⟨l, hmem, ?_⟩
    unfold lineParse
    have hne : l ≠ "" := by
      intro hle
      subst hle
      rw [show splitTabOnce "" = Option.none from rfl] at hsp
      exact Option.noConfusion hsp
    rw [if_neg hne]
    exact hsp

/-- C8 witness: in the batch with one well-formed and one malformed line, the
malformed line is reported and the well-formed line's pair is produced. -/
theorem c8_witness :
    "onlyoneid" ∈ (parseLines ["id1\tTitle", "onlyoneid"]).2 ∧
    ("id1", "Title") ∈ (parseLines ["id1\tTitle", "onlyoneid"]).1 :=
  ⟨c8_malformed_line_skipped.1 ["id1\tTitle", "onlyoneid"] "onlyoneid"
      (by decide) (by decide) (by decide),
   c8_malformed_line_skipped.2.2 ["id1\tTitle", "onlyoneid"] "id1\tTitle"
      ("id1", "Title") (by decide) (by decide)⟩
